import Mathlib

/-!
Verification development for the kubeadm vagrant playground's cluster-API
layer (`vagrant/hack/lib/cluster_api.py` together with the validator
helpers in `vagrant/hack/lib/utils.py`, `kubernetes_utils.py` and
`kubeadm_utils.py`).

The Python code is shallowly embedded: YAML documents become an inductive
`Yaml` value type, Python exceptions become an explicit `PyErr` error type
threaded through `Except`, and each Python function of the parsing /
validation / expansion layer becomes a Lean function of the same name.
-/

/-- A loaded YAML document / Python value: strings, integers, `None`,
sequences and string-keyed mappings (Python dicts, kept as association
lists with unique keys in insertion order). -/
inductive Yaml where
  | str (s : String)
  | int (n : Int)
  | null
  | list (xs : List Yaml)
  | map (entries : List (String × Yaml))

/-- The error taxonomy of the layer.  Concretely in Python:
`missingKeyError` is the `KeyError` re-raised by `getx` (naming the full
dotted path), `validationError` and `consistencyError` are the
`ValueError`s raised by the value validators and by the cross-field
consistency checks respectively, `keyError` / `typeError` / `indexError`
are the built-in exceptions of primitive subscripting, `parseError` is the
`RuntimeError` that `parse` wraps a file's failure into (carrying the file
name and the original exception), and `nameError` is a `NameError` for an
unbound Python name. -/
inductive PyErr where
  | keyError (key : String)
  | typeError
  | indexError
  | missingKeyError (path : String)
  | validationError (msg : String)
  | consistencyError (msg : String)
  | parseError (file : String) (inner : PyErr)
  | nameError (name : String)
deriving DecidableEq, Repr

/-- Association-list lookup, matching Python dict subscripting on the
(unique-keyed) dicts produced by a YAML load. -/
def mapLookup : List (String × Yaml) → String → Option Yaml
  | [], _ => none
  | (k', v) :: rest, k => if k' = k then some v else mapLookup rest k

/-- Association-list update `d[k] = v`: overwrite the existing key or
append a new one, as Python dict assignment does. -/
def mapInsert : List (String × Yaml) → String → Yaml → List (String × Yaml)
  | [], k, v => [(k, v)]
  | (k', v') :: rest, k, v =>
    if k' = k then (k, v) :: rest else (k', v') :: mapInsert rest k v

/-- Python `data[key]` with a string key: a dict either yields the value
or raises `KeyError`; every non-dict raises `TypeError` (strings and lists
reject string subscripts, scalars are not subscriptable). -/
def pyGetItem (v : Yaml) (key : String) : Except PyErr Yaml :=
  match v with
  | .map entries =>
    match mapLookup entries key with
    | some w => .ok w
    | none => .error (.keyError key)
  | _ => .error .typeError

/-- Python `data[i]` with a non-negative int index: lists and strings
index (raising `IndexError` out of range), dicts raise `KeyError` (an int
is not among the string keys), scalars raise `TypeError`. -/
def pyGetIntItem (v : Yaml) (i : Nat) : Except PyErr Yaml :=
  match v with
  | .list xs =>
    match xs.get? i with
    | some w => .ok w
    | none => .error .indexError
  | .str s =>
    match s.data.get? i with
    | some c => .ok (.str (String.mk [c]))
    | none => .error .indexError
  | .map _ => .error (.keyError (toString i))
  | _ => .error .typeError

/-- Python `keys.split('.')` on the character list: splitting on every
dot, keeping empty segments, and yielding `[""]` for the empty string. -/
def splitOnDot : List Char → List (List Char)
  | [] => [[]]
  | c :: rest =>
    let r := splitOnDot rest
    if c = '.' then [] :: r
    else
      match r with
      | seg :: segs => (c :: seg) :: segs
      | [] => [[c]]

/-- Python `keys.split('.')`. -/
def pySplitDot (s : String) : List String :=
  (splitOnDot s.data).map String.mk

/-- The raw dotted-path traversal underlying `getx` (cluster_api.py lines
163-165 without the `except KeyError` handler): subscript the current
value with each segment in order, propagating the first error. -/
def getxTraverse : Yaml → List String → Except PyErr Yaml
  | data, [] => .ok data
  | data, key :: rest =>
    match pyGetItem data key with
    | .ok d => getxTraverse d rest
    | .error e => .error e

/-! `getx(data, keys, default=None, validator=None)` of cluster_api.py
(lines 160-175) splits `keys` on dots and subscripts segment by segment,
with a `try`/`except KeyError` around each subscript.  It is embedded as
the loop body `getxStep`, the loop `getxGo`, and the entry point
`getx`. -/

/-- The body of one iteration of the `getx` loop:
`try: data = data[key]` — on success continue with the new value; on a
`KeyError`, `if default != None: return default` and otherwise raise the
`KeyError` naming the full dotted path; any other exception propagates
(only `KeyError` is caught).  The default is a Python value whose `None`
(the parameter's own default) means "no default", exactly as in the
source — Python cannot tell an explicit `default=None` from an omitted
one. -/
def getxStep (keys : String) (default : Yaml) (r : Except PyErr Yaml)
    (cont : Yaml → Except PyErr Yaml) : Except PyErr Yaml :=
  match r with
  | .ok d => cont d
  | .error (.keyError _) =>
    match default with
    | .null => .error (.missingKeyError keys)
    | d => .ok d
  | .error e => .error e

/-- The `for key in keys.split('.')` loop of `getx`; after the last
segment the validator (when supplied) runs on the resolved value before
it is returned.  A default returned early exits the function, skipping
the validator. -/
def getxGo (keys : String) (default : Yaml)
    (validator : Option (Yaml → Except PyErr Unit)) :
    Yaml → List String → Except PyErr Yaml
  | data, [] =>
    match validator with
    | none => .ok data
    | some f =>
      match f data with
      | .ok _ => .ok data
      | .error e => .error e
  | data, key :: rest =>
    getxStep keys default (pyGetItem data key)
      (fun d => getxGo keys default validator d rest)

def getx (data : Yaml) (keys : String) (default : Yaml := .null)
    (validator : Option (Yaml → Except PyErr Unit) := none) : Except PyErr Yaml :=
  getxGo keys default validator data (pySplitDot keys)

/-! ### Scalar validators

`re.match` in Python 2 anchors at the start, and a `$` in the pattern
matches either at the very end of the string or just before one final
newline.  None of the character classes used by these patterns can consume
a newline, so the language of each fully-anchored pattern is exactly the
language of the strict pattern applied to the string with one trailing
newline removed; `stripTrailNL` performs that removal. -/

/-- Drop one trailing newline if present (the `$` allowance of `re`). -/
def stripTrailNL (cs : List Char) : List Char :=
  match cs.getLast? with
  | some c => if c = '\n' then cs.dropLast else cs
  | none => cs

/-- Character class `[a-z0-9]` of the RFC-1123 patterns. -/
def isLowerAlnum (c : Char) : Bool :=
  ('a' ≤ c ∧ c ≤ 'z') ∨ ('0' ≤ c ∧ c ≤ '9')

/-- The language of `^[a-z0-9]([-a-z0-9]*[a-z0-9])?$` on a (newline
stripped) character list: nonempty, every character in `[-a-z0-9]`, and
neither the first nor the last character a dash. -/
def rfc1123LabelChars (cs : List Char) : Bool :=
  match cs with
  | [] => false
  | c :: rest =>
    isLowerAlnum c &&
      rest.all (fun d => isLowerAlnum d || d = '-') &&
      (match (c :: rest).getLast? with
       | some lastc => isLowerAlnum lastc
       | none => false)

/-- `kubernetes_utils.validate_rfc123_label`: `re.match` of the RFC-1123
label pattern against the argument, `TypeError` on non-strings. -/
def validate_rfc123_label (v : Yaml) : Except PyErr Unit :=
  match v with
  | .str s =>
    if rfc1123LabelChars (stripTrailNL s.data) then .ok ()
    else .error (.validationError "invalid RFC1123 label")
  | _ => .error .typeError

/-- Split on every `'.'` — reused to express the subdomain pattern
`^label(\.label)*$` as: every dot-separated segment is a label. -/
def rfc1123SubdomainChars (cs : List Char) : Bool :=
  (splitOnDot cs).all rfc1123LabelChars

/-- `kubernetes_utils.validate_rfc123_subdomain`. -/
def validate_rfc123_subdomain (v : Yaml) : Except PyErr Unit :=
  match v with
  | .str s =>
    if rfc1123SubdomainChars (stripTrailNL s.data) then .ok ()
    else .error (.validationError "invalid RFC1123 subdomain")
  | _ => .error .typeError

/-- Membership of a Python value in a fixed list of allowed strings, the
common shape of the enumeration validators in `kubeadm_utils.py`
(`arg not in valid` raises `ValueError`).  A non-string value is simply
not a member, so it too raises the `ValueError`. -/
def enumValidator (valid : List String) (msg : String) (v : Yaml) :
    Except PyErr Unit :=
  match v with
  | .str s => if s ∈ valid then .ok () else .error (.validationError msg)
  | _ => .error (.validationError msg)

/-- `kubeadm_utils.validate_controlplane_type`. -/
def validate_controlplane_type : Yaml → Except PyErr Unit :=
  enumValidator ["staticPods", "selfHosting"] "invalid controlplane type"

/-- `kubeadm_utils.validate_certificateAuthority_type`. -/
def validate_certificateAuthority_type : Yaml → Except PyErr Unit :=
  enumValidator ["local", "external"] "invalid certificateauthority type"

/-- `kubeadm_utils.validate_certificateAuthority_location`. -/
def validate_certificateAuthority_location : Yaml → Except PyErr Unit :=
  enumValidator ["filesystem", "secrets"] "invalid certificateauthority location"

/-- `kubeadm_utils.validate_dns_addon`. -/
def validate_dns_addon : Yaml → Except PyErr Unit :=
  enumValidator ["kubeDNS", "coreDNS"] "invalid DNS add-on"

/-- `kubeadm_utils.validate_network_addon`. -/
def validate_network_addon : Yaml → Except PyErr Unit :=
  enumValidator ["weavenet", "flannel", "calico"] "invalid network add-on"

/-- `kubeadm_utils.validate_kubelet_config_type`. -/
def validate_kubelet_config_type : Yaml → Except PyErr Unit :=
  enumValidator ["systemdDropIn", "dynamicKubeletConfig"] "invalid kubelet config type"

/-- Python `int(arg)` succeeding: ints (and bools) convert, strings
convert when they spell an optionally signed decimal integer (surrounding
whitespace elided here), everything else raises `TypeError`. -/
def pyIntConvertible (v : Yaml) : Except PyErr Unit :=
  match v with
  | .int _ => .ok ()
  | .str s =>
    let core := match s.data with
      | '-' :: rest => rest
      | '+' :: rest => rest
      | cs => cs
    if core ≠ [] ∧ core.all Char.isDigit then .ok ()
    else .error (.validationError "invalid integer")
  | _ => .error .typeError

/-- `utils.validate_integer`: `int(arg)` with `ValueError` re-raised as
the descriptive message; a `TypeError` from a non-convertible type
propagates uncaught. -/
def validate_integer (v : Yaml) : Except PyErr Unit :=
  pyIntConvertible v

/-- `cluster_api.validate_roles`: iterate the argument and require every
element to be one of the role strings.  Iterating a YAML list checks its
elements, iterating a string checks its characters (each a one-character
string, never a valid role, so any nonempty string fails), iterating a
dict checks its keys, and scalars are not iterable (`TypeError`). -/
def validate_roles (v : Yaml) : Except PyErr Unit :=
  let roleOk : Yaml → Bool := fun x =>
    match x with
    | .str s => s = "Master" ∨ s = "Node" ∨ s = "Etcd"
    | _ => false
  match v with
  | .list xs =>
    if xs.all roleOk then .ok ()
    else .error (.validationError "invalid machine set role")
  | .str s =>
    if s.data = [] then .ok ()
    else .error (.validationError "invalid machine set role")
  | .map entries =>
    if entries.all (fun kv => kv.1 = "Master" ∨ kv.1 = "Node" ∨ kv.1 = "Etcd")
    then .ok ()
    else .error (.validationError "invalid machine set role")
  | _ => .error .typeError

/-- `kubeadm_utils.network_addon_default_subnet`: the per-addon default
`(serviceSubnet, podSubnet)` pair of one-element Python lists.  For an
argument outside the three known addons the Python function falls off the
end returning `None`, and unpacking that into a pair raises `TypeError`. -/
def network_addon_default_subnet (addon : Yaml) : Except PyErr (Yaml × Yaml) :=
  match addon with
  | .str s =>
    if s = "weavenet" then .ok (.list [.null], .list [.null])
    else if s = "flannel" then .ok (.list [.null], .list [.str "10.244.0.0/16"])
    else if s = "calico" then .ok (.list [.null], .list [.str "192.168.0.0/16"])
    else .error .typeError
  | _ => .error .typeError

/-! ### The CIDR pattern

`utils.CIDR_PATTERN` is

  `^(?=\d+\.\d+\.\d+\.\d+($|\/))(([1-9]?\d|1\d\d|2[0-4]\d|25[0-5])\.?){4}(\/([0-9]|[1-2][0-9]|3[0-2]))?$`

a lookahead conjoined with a body, both anchored at position 0; the
string matches iff the lookahead matches there and the body (up to `$`)
matches there.  The matcher below is a direct translation with
existential backtracking semantics: each sub-pattern maps a character
list to the list of possible remainders, and the whole pattern matches
when some branch consumes everything.  The `$` before-final-newline
allowance is handled once by `stripTrailNL` (no class of this pattern can
consume a newline). -/

/-- `\d+`: every way to consume one or more leading digits. -/
def dplusRems : List Char → List (List Char)
  | [] => []
  | c :: rest => if c.isDigit then rest :: dplusRems rest else []

/-- The lookahead `\d+\.\d+\.\d+\.\d+($|\/)` at position 0. -/
def lookaheadOk (cs : List Char) : Bool :=
  (dplusRems cs).any fun r1 =>
    match r1 with
    | c1 :: r2 =>
      c1 = '.' && ((dplusRems r2).any fun r3 =>
        match r3 with
        | c2 :: r4 =>
          c2 = '.' && ((dplusRems r4).any fun r5 =>
            match r5 with
            | c3 :: r6 =>
              c3 = '.' && ((dplusRems r6).any fun r7 =>
                r7.isEmpty ||
                  (match r7 with | c4 :: _ => c4 = '/' | [] => false))
            | [] => false)
        | [] => false)
    | [] => false

/-- The octet alternation `[1-9]?\d|1\d\d|2[0-4]\d|25[0-5]`: every way to
consume one alternative. -/
def octRems (cs : List Char) : List (List Char) :=
  (match cs with
   | a :: b :: r =>
     (if ('1' ≤ a ∧ a ≤ '9') ∧ b.isDigit then [r] else []) ++
       (if a.isDigit then [b :: r] else [])
   | [a] => if a.isDigit then [[]] else []
   | [] => []) ++
  (match cs with
   | a :: b :: c :: r =>
     (if a = '1' ∧ b.isDigit ∧ c.isDigit then [r] else []) ++
       (if a = '2' ∧ ('0' ≤ b ∧ b ≤ '4') ∧ c.isDigit then [r] else []) ++
       (if a = '2' ∧ b = '5' ∧ ('0' ≤ c ∧ c ≤ '5') then [r] else [])
   | _ => [])

/-- One repetition of the group `(octet)\.?`: match an octet, then
optionally a dot. -/
def groupRems (cs : List Char) : List (List Char) :=
  (octRems cs).flatMap fun r =>
    match r with
    | c :: r2 => if c = '.' then [r2, c :: r2] else [c :: r2]
    | [] => [[]]

/-- `{4}`: the group repeated `n` times in sequence. -/
def groupPow : Nat → List Char → List (List Char)
  | 0, cs => [cs]
  | n + 1, cs => (groupRems cs).flatMap (groupPow n)

/-- The mask alternation `[0-9]|[1-2][0-9]|3[0-2]`. -/
def maskNumOk : List Char → Bool
  | [a] => a.isDigit
  | [a, b] => (('1' ≤ a ∧ a ≤ '2') ∧ b.isDigit) ∨ (a = '3' ∧ ('0' ≤ b ∧ b ≤ '2'))
  | _ => false

/-- The tail `(\/([0-9]|[1-2][0-9]|3[0-2]))?$`: the remainder is empty, or
a slash followed by a one- or two-character mask in 0..32. -/
def maskTailOk (cs : List Char) : Bool :=
  match cs with
  | [] => true
  | c :: p => c = '/' && maskNumOk p

/-- The full anchored pattern on a newline-stripped character list. -/
def cidrPatternMatch (cs : List Char) : Bool :=
  lookaheadOk cs && (groupPow 4 cs).any maskTailOk

/-- `utils.validate_cidr`: `re.match(CIDR_PATTERN, arg)`, raising
`ValueError` when there is no match and `TypeError` on non-strings. -/
def validate_cidr (v : Yaml) : Except PyErr Unit :=
  match v with
  | .str s =>
    if cidrPatternMatch (stripTrailNL s.data) then .ok ()
    else .error (.validationError "invalid CIDR")
  | _ => .error .typeError

/-- `utils.validate_cidrs(*args)`: validate each value in order. -/
def validate_cidrs : List Yaml → Except PyErr Unit
  | [] => .ok ()
  | a :: rest =>
    match validate_cidr a with
    | .ok _ => validate_cidrs rest
    | .error e => .error e

/-! ### The typed records

`VagrantCluster`, `VagrantMachineSet` and `VagrantMachine` mirror the
Python classes of cluster_api.py.  Python stores the resolved YAML values
untyped; here the fields that are guarded by a string validator (name,
the enumerations, dnsDomain) are typed `String` and the integer fields
`Nat`, with an explicit coercion after each `getx`.  On every value the
validators let through as a string/int the coercion is the identity; the
residual dynamic behaviours (a numeric *string* passing
`validate_integer`, an empty string or a dict passing `validate_roles`)
would make Python store a value that crashes or misbehaves further down
`get_machines`, and surface here as a `TypeError` at record construction
instead.  `version`, the two subnets and `extra_vars` are unvalidated or
structurally free in Python and stay `Yaml`.  A negative `replicas`
(Python `int` can be negative; `Nat.toNat` clamps to 0) expands to zero
machines either way, since `range(1, r + 1)` is empty for `r <= 0`. -/

structure VagrantCluster where
  name : String
  version : Yaml
  controlplane : String
  certificateAuthority : String
  pkiLocation : String
  dnsAddon : String
  dnsDomain : String
  networkAddon : String
  serviceSubnet : Yaml
  podSubnet : Yaml
  kubeletConfig : String
  extra_vars : Yaml
  highavailability : Bool
  externalEtcd : Bool

structure VagrantMachineSet where
  name : String
  replicas : Nat
  box : String
  cpus : Nat
  memory : Nat
  roles : List String

structure VagrantMachine where
  name : String
  hostname : String
  box : String
  ip : String
  cpus : Nat
  memory : Nat
  roles : List String

/-- Coerce a resolved YAML value to the string it is on every value the
string validators accept. -/
def asStr (v : Yaml) : Except PyErr String :=
  match v with
  | .str s => .ok s
  | _ => .error .typeError

/-- Coerce a resolved YAML value to a natural number (see the note on
`replicas` above). -/
def asNat (v : Yaml) : Except PyErr Nat :=
  match v with
  | .int n => .ok n.toNat
  | _ => .error .typeError

/-- Coerce a validated roles value to its list of role strings. -/
def asRoles (v : Yaml) : Except PyErr (List String) :=
  match v with
  | .list xs => xs.mapM asStr
  | _ => .error .typeError

/-- Python `ev[k1][k2] = v`: subscript `ev` with `k1` (KeyError when the
key is absent, TypeError when `ev` is not a dict), then item-assign on
the inner value (TypeError when it is not a dict).  The in-place dict
mutation becomes a functional update of the nested association lists. -/
def pySetItem2 (ev : Yaml) (k1 k2 : String) (v : Yaml) : Except PyErr Yaml :=
  match pyGetItem ev k1 with
  | .error e => .error e
  | .ok inner =>
    match inner, ev with
    | .map innerEntries, .map outerEntries =>
      .ok (.map (mapInsert outerEntries k1 (.map (mapInsert innerEntries k2 v))))
    | _, _ => .error .typeError

/-- Lines 112-138 of `get_cluster`: resolve every Cluster field through
`getx` with the defaults and validators of the source, capture
`spec.providerConfig.value` as `extra_vars`, and replicate the resolved
dnsDomain / serviceSubnet / podSubnet into `extra_vars['kubernetes']`
under the source's conditions (dnsDomain differs from the built-in
default; the subnet's first element is not `None`).  The two derived
flags start `False`, as in `VagrantCluster.__init__`. -/
def extractClusterFields (data : Yaml) : Except PyErr VagrantCluster := do
  let nameV ← getx data "metadata.name" .null (some validate_rfc123_label)
  let name ← asStr nameV
  let version ← getx data "spec.providerConfig.value.kubernetes.version" .null none
  let controlplaneV ← getx data "spec.providerConfig.value.kubernetes.controlplane"
    (.str "staticPods") (some validate_controlplane_type)
  let controlplane ← asStr controlplaneV
  let certificateAuthorityV ← getx data "spec.providerConfig.value.kubernetes.certificateAuthority"
    (.str "local") (some validate_certificateAuthority_type)
  let certificateAuthority ← asStr certificateAuthorityV
  let pkiLocationV ← getx data "spec.providerConfig.value.kubernetes.pkiLocation"
    (.str "filesystem") (some validate_certificateAuthority_location)
  let pkiLocation ← asStr pkiLocationV
  let dnsAddonV ← getx data "spec.providerConfig.value.kubernetes.dnsAddon"
    (.str "kubeDNS") (some validate_dns_addon)
  let dnsAddon ← asStr dnsAddonV
  let dnsDomainV ← getx data "spec.clusterNetwork.serviceDomain"
    (.str "cluster.local") (some validate_rfc123_subdomain)
  let dnsDomain ← asStr dnsDomainV
  let networkAddonV ← getx data "spec.providerConfig.value.kubernetes.cni.plugin"
    (.str "weavenet") (some validate_network_addon)
  let networkAddon ← asStr networkAddonV
  let defaults ← network_addon_default_subnet networkAddonV
  let serviceSubnet ← getx data "spec.clusterNetwork.services.cidrblocks"
    defaults.1 (some validate_cidr)
  let podSubnet ← getx data "spec.clusterNetwork.pods.cidrblocks"
    defaults.2 (some (fun v => validate_cidrs [v]))
  let kubeletConfigV ← getx data "spec.providerConfig.value.kubernetes.kubeletConfig"
    (.str "systemdDropIn") (some validate_kubelet_config_type)
  let kubeletConfig ← asStr kubeletConfigV
  let extraVars0 ← getx data "spec.providerConfig.value" .null none
  let extraVars1 ←
    if dnsDomain ≠ "cluster.local" then
      pySetItem2 extraVars0 "kubernetes" "dnsDomain" (.str dnsDomain)
    else pure extraVars0
  let sv0 ← pyGetIntItem serviceSubnet 0
  let extraVars2 ←
    match sv0 with
    | .null => pure extraVars1
    | v => pySetItem2 extraVars1 "kubernetes" "serviceSubnet" v
  let pv0 ← pyGetIntItem podSubnet 0
  let extraVars3 ←
    match pv0 with
    | .null => pure extraVars2
    | v => pySetItem2 extraVars2 "kubernetes" "podSubnet" v
  pure { name, version, controlplane, certificateAuthority, pkiLocation,
         dnsAddon, dnsDomain, networkAddon, serviceSubnet, podSubnet,
         kubeletConfig, extra_vars := extraVars3,
         highavailability := false, externalEtcd := false }

/-- `cluster_api.get_cluster` (lines 109-144): resolve the fields, then
fail fast on the cross-field invariant of lines 140-142 — a PKI location
of "secrets" is only consistent with a self-hosted controlplane. -/
def get_cluster (data : Yaml) : Except PyErr VagrantCluster :=
  match extractClusterFields data with
  | .error e => .error e
  | .ok c =>
    if c.pkiLocation = "secrets" ∧ c.controlplane ≠ "selfHosting" then
      .error (.consistencyError
        "Invalid cluster definition. PKILocation can be secrets only if controlplane is self hosted")
    else .ok c

/-- `cluster_api.get_machineSet` (lines 146-158). -/
def get_machineSet (data : Yaml) : Except PyErr VagrantMachineSet := do
  let nameV ← getx data "metadata.name" .null (some validate_rfc123_label)
  let name ← asStr nameV
  let replicasV ← getx data "spec.replicas" (.int 1) (some validate_integer)
  let replicas ← asNat replicasV
  let boxV ← getx data "spec.template.spec.providerConfig.value.box"
    (.str "ubuntu/xenial64") none
  let box ← asStr boxV
  let cpusV ← getx data "spec.template.spec.providerConfig.value.cpus"
    (.int 2) (some validate_integer)
  let cpus ← asNat cpusV
  let memoryV ← getx data "spec.template.spec.providerConfig.value.memory"
    (.int 2048) (some validate_integer)
  let memory ← asNat memoryV
  let rolesV ← getx data "spec.template.spec.roles" .null (some validate_roles)
  let roles ← asRoles rolesV
  pure { name, replicas, box, cpus, memory, roles }

/-- The per-file body of `parse`'s loop (lines 88-98): classify the
already-loaded document by its `kind` discriminator, dispatching to
`get_cluster` (rebinding the single cluster variable, so a later Cluster
document overwrites an earlier one) or `get_machineSet` (appending), and
ignoring unrecognized kinds.  Any exception a file raises — including the
`KeyError` of a missing `kind` — is wrapped into a `RuntimeError`
carrying the file path. -/
def parseStep (data : Yaml) (cluster : Option VagrantCluster)
    (machineSets : List VagrantMachineSet) :
    Except PyErr (Option VagrantCluster × List VagrantMachineSet) :=
  match pyGetItem data "kind" with
  | .error e => .error e
  | .ok kind =>
    match kind with
    | .str s =>
      if s = "Cluster" then
        match get_cluster data with
        | .ok c => .ok (some c, machineSets)
        | .error e => .error e
      else if s = "MachineSet" then
        match get_machineSet data with
        | .ok m => .ok (cluster, machineSets ++ [m])
        | .error e => .error e
      else .ok (cluster, machineSets)
    | _ => .ok (cluster, machineSets)

/-- The loop of `parse` over the (file, document) list. -/
def parseLoop :
    List (String × Yaml) → Option VagrantCluster → List VagrantMachineSet →
      Except PyErr (Option VagrantCluster × List VagrantMachineSet)
  | [], cluster, machineSets => .ok (cluster, machineSets)
  | (f, data) :: rest, cluster, machineSets =>
    match parseStep data cluster machineSets with
    | .ok (c, ms) => parseLoop rest c ms
    | .error e => .error (.parseError f e)

/-- `cluster_api.parse` (lines 80-107) over the loaded documents of the
folder in enumeration order.  After the scan, the code intends to raise a
`ValueError` when no Cluster document was found (line 102) and when no
MachineSet documents were found (line 105); both raise statements format
their message with `%` `(spec)`, but `spec` is not a bound name anywhere
in the module, so what Python actually raises at those lines is
`NameError: name 'spec' is not defined`. -/
def parse (docs : List (String × Yaml)) :
    Except PyErr (VagrantCluster × List VagrantMachineSet) :=
  match parseLoop docs none [] with
  | .error e => .error e
  | .ok (none, _) => .error (.nameError "spec")
  | .ok (some c, machineSets) =>
    if machineSets.length = 0 then .error (.nameError "spec")
    else .ok (c, machineSets)

/-! ### Machine expansion (`get_machines`, lines 177-218) -/

/-- The machine built on one iteration of the expansion loop (lines
185-193), with `j` the running cluster-wide counter.  Note that both the
`replicas > 1` name suffix and the IP use `j` — the counter shared across
all machine sets — and that the IP is the string `"10.10.10.1"` with the
decimal digits of `j` appended (`"10.10.10.1%s" % (j)`). -/
def mkMachine (c : VagrantCluster) (s : VagrantMachineSet) (j : Nat) : VagrantMachine :=
  { name := if s.replicas = 1 then c.name ++ "-" ++ s.name
            else c.name ++ "-" ++ s.name ++ toString j
    hostname := c.name ++ "-" ++
      (if s.replicas = 1 then c.name ++ "-" ++ s.name
       else c.name ++ "-" ++ s.name ++ toString j) ++ ".local"
    box := s.box
    ip := "10.10.10.1" ++ toString j
    cpus := s.cpus
    memory := s.memory
    roles := s.roles }

/-- The nested loops of lines 181-194: for each machine set, `replicas`
iterations, each appending one machine and incrementing the shared
counter `j` (which starts at 1). -/
def expandFrom (c : VagrantCluster) : List VagrantMachineSet → Nat → List VagrantMachine
  | [], _ => []
  | s :: rest, j =>
    (List.range s.replicas).map (fun k => mkMachine c s (j + k)) ++
      expandFrom c rest (j + s.replicas)

/-- The full machine list built by `get_machines` before validation. -/
def expandMachines (c : VagrantCluster) (machineSets : List VagrantMachineSet) :
    List VagrantMachine :=
  expandFrom c machineSets 1

/-- The machines of a list that carry a given role (the list
comprehensions of lines 196, 201 and 206). -/
def withRole (machines : List VagrantMachine) (role : String) : List VagrantMachine :=
  machines.filter (fun m => role ∈ m.roles)

/-- Lines 206-208 (plus the `return machines` of line 218): set the
external-etcd flag when any machine carries the Etcd role.  The
serialization of the machine list to `tmp/machines.yml` (lines 210-216)
is an I/O side effect outside the pure result. -/
def finishMachines (c : VagrantCluster) (machines : List VagrantMachine) :
    Except PyErr (VagrantCluster × List VagrantMachine) :=
  let c := if (withRole machines "Etcd").length > 0
           then { c with externalEtcd := true } else c
  .ok (c, machines)

/-- `cluster_api.get_machines` (lines 177-218): expand every machine set
into concrete machines, then validate the cluster-wide invariants in
order, failing fast — at least one Master; with more than one Master the
cluster is marked high-availability, an external etcd machine is
required, and a PKI location of "secrets" is rejected.  The returned
cluster is the input cluster with the derived flags as the Python code
leaves them on its (mutated-in-place) cluster object upon success. -/
def get_machines (c : VagrantCluster) (machineSets : List VagrantMachineSet) :
    Except PyErr (VagrantCluster × List VagrantMachine) :=
  let machines := expandMachines c machineSets
  let masters := withRole machines "Master"
  if masters.length = 0 then
    .error (.consistencyError
      "Invalid cluster definition. At least one Master machine is required")
  else if masters.length > 1 then
    let c := { c with highavailability := true }
    if (withRole machines "Etcd").length = 0 then
      .error (.consistencyError
        "Invalid cluster definition. Multi masters requires external etcd.")
    else if c.pkiLocation = "secrets" then
      .error (.consistencyError
        "Invalid cluster definition. Multi masters does not support certificates in secrets yet.")
    else finishMachines c machines
  else finishMachines c machines

/-! ### Derived quantities and concrete fixtures used by the claims -/

/-- Sum of the replica counts of the machine sets before position `p`:
the number of machines (and counter increments) the expansion produces
before reaching set `p`. -/
def replicasBefore (machineSets : List VagrantMachineSet) (p : Nat) : Nat :=
  ((machineSets.take p).map (·.replicas)).sum

/-- The numeric value of the final octet of a produced IP: the digit `1`
followed by the decimal digits of the counter `j`, read as one decimal
number (digits are little-endian here, so the leading `1` is appended). -/
def lastOctetVal (j : Nat) : Nat :=
  Nat.ofDigits 10 (Nat.digits 10 j ++ [1])

/-- Whether a loaded document would take `parse`'s Cluster branch: its
`kind` entry exists and equals `"Cluster"`. -/
def isClusterDoc (d : Yaml) : Bool :=
  match pyGetItem d "kind" with
  | .ok (.str s) => s = "Cluster"
  | _ => false

/-- A plain cluster record, as `get_cluster` builds for a minimal Cluster
document named `test` (all defaulted fields, flags `false`). -/
def clusterTest : VagrantCluster :=
  { name := "test", version := .str "v1.10", controlplane := "staticPods",
    certificateAuthority := "local", pkiLocation := "filesystem",
    dnsAddon := "kubeDNS", dnsDomain := "cluster.local",
    networkAddon := "weavenet",
    serviceSubnet := .list [.null], podSubnet := .list [.null],
    kubeletConfig := "systemdDropIn",
    extra_vars := .map [("kubernetes", .map [("version", .str "v1.10")])],
    highavailability := false, externalEtcd := false }

/-- A two-replica master+etcd machine set. -/
def setMaster : VagrantMachineSet :=
  { name := "master", replicas := 2, box := "ubuntu/xenial64",
    cpus := 2, memory := 2048, roles := ["Master", "Etcd"] }

/-- A two-replica worker machine set. -/
def setWorker : VagrantMachineSet :=
  { name := "worker", replicas := 2, box := "ubuntu/xenial64",
    cpus := 2, memory := 2048, roles := ["Node"] }

/-- A ten-replica master+etcd machine set. -/
def setTen : VagrantMachineSet :=
  { name := "m", replicas := 10, box := "ubuntu/xenial64",
    cpus := 2, memory := 2048, roles := ["Master", "Etcd"] }

/-- A two-replica master-only machine set (no etcd anywhere). -/
def setMastersOnly : VagrantMachineSet :=
  { name := "master", replicas := 2, box := "ubuntu/xenial64",
    cpus := 2, memory := 2048, roles := ["Master"] }

/-- A minimal valid Cluster document (kind, name, required version). -/
def clusterDoc : Yaml :=
  .map [("kind", .str "Cluster"),
        ("metadata", .map [("name", .str "test")]),
        ("spec", .map [("providerConfig", .map [("value", .map [("kubernetes",
           .map [("version", .str "v1.10")])])])])]

/-- The same document with `metadata.name` violating the RFC-1123 label
validator. -/
def badClusterDoc : Yaml :=
  .map [("kind", .str "Cluster"),
        ("metadata", .map [("name", .str "Bad_Name")]),
        ("spec", .map [("providerConfig", .map [("value", .map [("kubernetes",
           .map [("version", .str "v1.10")])])])])]

/-- A valid Cluster document named `beta`. -/
def clusterDocBeta : Yaml :=
  .map [("kind", .str "Cluster"),
        ("metadata", .map [("name", .str "beta")]),
        ("spec", .map [("providerConfig", .map [("value", .map [("kubernetes",
           .map [("version", .str "v1.10")])])])])]

/-- The cluster record `get_cluster` builds from `clusterDocBeta`. -/
def clusterBeta : VagrantCluster :=
  { clusterTest with name := "beta" }

/-- A minimal valid Cluster document whose `pkiLocation` is `secrets`
(and whose controlplane defaults to `staticPods`). -/
def secretsDoc : Yaml :=
  .map [("kind", .str "Cluster"),
        ("metadata", .map [("name", .str "test")]),
        ("spec", .map [("providerConfig", .map [("value", .map [("kubernetes",
           .map [("version", .str "v1.10"),
                 ("pkiLocation", .str "secrets")])])])])]

/-- The cluster record `extractClusterFields` builds from `secretsDoc`. -/
def clusterSecrets : VagrantCluster :=
  { clusterTest with
    pkiLocation := "secrets",
    extra_vars := .map [("kubernetes", .map [("version", .str "v1.10"),
                                             ("pkiLocation", .str "secrets")])] }

/-- A minimal valid MachineSet document (one defaulted replica, role
Node). -/
def msDoc : Yaml :=
  .map [("kind", .str "MachineSet"),
        ("metadata", .map [("name", .str "workers")]),
        ("spec", .map [("template", .map [("spec", .map [("roles",
           .list [.str "Node"])])])])]

/-- The machine-set record `get_machineSet` builds from `msDoc`. -/
def msWorkers : VagrantMachineSet :=
  { name := "workers", replicas := 1, box := "ubuntu/xenial64",
    cpus := 2, memory := 2048, roles := ["Node"] }

/-! ### Specification-side definitions for the CIDR language (C8)

These follow the claim's words — "a dotted-quad IPv4 address optionally
followed by a slash and a prefix length between 0 and 32" — rather than
the regex, and are compared with the regex matcher. -/

/-- The number a big-endian string of decimal digit characters denotes. -/
def digitsVal (cs : List Char) : Nat :=
  cs.foldl (fun acc c => 10 * acc + (c.toNat - 48)) 0

/-- No leading zero (a multi-character numeral may not start with 0). -/
def noLeadingZero : List Char → Bool
  | a :: _ :: _ => a ≠ '0'
  | _ => true

/-- A canonical decimal numeral denoting a number of at most `bound`:
nonempty, all digits, no leading zero, value within the bound. -/
def isCanonicalNum (w : List Char) (bound : Nat) : Bool :=
  (!w.isEmpty) && w.all Char.isDigit && noLeadingZero w &&
    decide (digitsVal w ≤ bound)

/-- A dotted-quad IPv4 address — four canonical octets 0..255 joined by
dots — optionally followed by a slash and a canonical mask length
0..32. -/
def IsCidrStr (cs : List Char) : Prop :=
  ∃ A B C D t,
    cs = A ++ '.' :: (B ++ '.' :: (C ++ '.' :: (D ++ t))) ∧
    isCanonicalNum A 255 = true ∧ isCanonicalNum B 255 = true ∧
    isCanonicalNum C 255 = true ∧ isCanonicalNum D 255 = true ∧
    (t = [] ∨ ∃ P, t = '/' :: P ∧ isCanonicalNum P 32 = true)

/-! ### Proof-side views of the CIDR matcher -/

/-- The words of the octet alternation
`[1-9]?\d|1\d\d|2[0-4]\d|25[0-5]` (by its shape). -/
def isOctet (w : List Char) : Bool :=
  match w with
  | [a] => a.isDigit
  | [a, b] => ('1' ≤ a ∧ a ≤ '9') ∧ b.isDigit
  | [a, b, c] =>
    (a = '1' ∧ b.isDigit ∧ c.isDigit) ∨
    (a = '2' ∧ ('0' ≤ b ∧ b ≤ '4') ∧ c.isDigit) ∨
    (a = '2' ∧ b = '5' ∧ ('0' ≤ c ∧ c ≤ '5'))
  | _ => false

/-- Rebuild the input consumed by a sequence of body-group repetitions:
each chunk is an octet word plus whether its optional dot consumed a
dot, followed by the remainder. -/
def chunksJoin : List (List Char × Bool) → List Char → List Char
  | [], r => r
  | (w, dot) :: cs, r =>
    w ++ (if dot then '.' :: chunksJoin cs r else chunksJoin cs r)

/-- Join digit runs with single dots, then the tail:
`runsJoin [A, B] t = A ++ "." ++ B ++ t`. -/
def runsJoin : List (List Char) → List Char → List Char
  | [], t => t
  | [r], t => r ++ t
  | r :: rs, t => r ++ '.' :: runsJoin rs t

/-- A tail the matcher can leave after the digit-and-dot region: empty,
or starting with a character that is neither a digit nor a dot. -/
def TailSafe (t : List Char) : Prop :=
  ∀ c cs', t = c :: cs' → c.isDigit = false ∧ c ≠ '.'

/-! ## Theorems -/

/-! ### Character toolkit -/

theorem char_eq_iff_toNat {a b : Char} : a = b ↔ a.toNat = b.toNat :=
  ⟨fun h => by rw [h], fun h => Char.eq_of_val_eq (UInt32.ext h)⟩

theorem char_le_iff_toNat {a b : Char} : a ≤ b ↔ a.toNat ≤ b.toNat := by
  rw [Char.le_def]
  exact ⟨fun h => by exact_mod_cast h, fun h => by exact_mod_cast h⟩

theorem char_isDigit_iff {c : Char} :
    c.isDigit = true ↔ 48 ≤ c.toNat ∧ c.toNat ≤ 57 := by
  simp only [Char.isDigit, Bool.and_eq_true, decide_eq_true_eq]
  constructor
  · intro ⟨h1, h2⟩; exact ⟨by exact_mod_cast h1, by exact_mod_cast h2⟩
  · intro ⟨h1, h2⟩; exact ⟨by exact_mod_cast h1, by exact_mod_cast h2⟩

/-! ### The CIDR matcher versus the CIDR language (C8) -/

theorem dplusRems_mem {cs r : List Char} :
    r ∈ dplusRems cs ↔ ∃ w, w ≠ [] ∧ w.all Char.isDigit ∧ cs = w ++ r := by
  constructor
  · intro h
    induction cs with
    | nil => simp [dplusRems] at h
    | cons c rest ih =>
      rw [dplusRems] at h
      split_ifs at h with hd
      · rcases List.mem_cons.mp h with h | h
        · exact ⟨[c], by simp, by simp [hd], by simp [h]⟩
        · obtain ⟨w, hw, hwd, hcs⟩ := ih h
          exact ⟨c :: w, by simp, by rw [List.all_cons, hd, hwd]; rfl, by simp [hcs]⟩
      · simp at h
  · intro ⟨w, hw, hwd, hcs⟩
    subst hcs
    induction w with
    | nil => exact absurd rfl hw
    | cons c w' ih =>
      rw [List.cons_append, dplusRems]
      have hd : c.isDigit = true := by
        rw [List.all_cons, Bool.and_eq_true] at hwd; exact hwd.1
      rw [if_pos hd]
      cases w' with
      | nil => exact List.mem_cons_self _ _
      | cons c2 w'' =>
        refine List.mem_cons_of_mem _ (ih (by simp) ?_)
        rw [List.all_cons, Bool.and_eq_true] at hwd
        exact hwd.2

/-! ### Structure of the expansion -/

theorem expandFrom_length (c : VagrantCluster) (ss : List VagrantMachineSet) :
    ∀ j, (expandFrom c ss j).length = (ss.map (·.replicas)).sum := by
  induction ss with
  | nil => intro j; rfl
  | cons s rest ih => intro j; simp [expandFrom, ih]

theorem expandFrom_get? (c : VagrantCluster) (ss : List VagrantMachineSet) :
    ∀ j k, k < (expandFrom c ss j).length →
      ∃ s, s ∈ ss ∧ (expandFrom c ss j).get? k = some (mkMachine c s (j + k)) := by
  induction ss with
  | nil => intro j k h; simp [expandFrom] at h
  | cons s rest ih =>
    intro j k h
    by_cases hk : k < s.replicas
    · refine ⟨s, List.mem_cons_self s rest, ?_⟩
      rw [expandFrom, List.get?_append (by simpa using hk), List.get?_map,
        List.get?_range hk]
      rfl
    · push_neg at hk
      have hlen : k - s.replicas < (expandFrom c rest (j + s.replicas)).length := by
        rw [expandFrom] at h
        simp only [List.length_append, List.length_map, List.length_range] at h
        omega
      obtain ⟨s', hs', heq⟩ := ih (j + s.replicas) (k - s.replicas) hlen
      refine ⟨s', List.mem_cons_of_mem _ hs', ?_⟩
      rw [expandFrom, List.get?_append_right (by simpa using hk)]
      simp only [List.length_map, List.length_range]
      have harith : j + s.replicas + (k - s.replicas) = j + k := by omega
      rw [harith] at heq
      exact heq

theorem expandFrom_set_get? (c : VagrantCluster) (ss : List VagrantMachineSet) :
    ∀ j p s, ss.get? p = some s → ∀ k, k < s.replicas →
      (expandFrom c ss j).get? (replicasBefore ss p + k)
        = some (mkMachine c s (j + replicasBefore ss p + k)) := by
  induction ss with
  | nil => intro j p s hp; simp at hp
  | cons s0 rest ih =>
    intro j p s hp k hk
    cases p with
    | zero =>
      have hs : s0 = s := by simpa using hp
      subst hs
      have hbef : replicasBefore (s0 :: rest) 0 = 0 := rfl
      rw [hbef, expandFrom]
      rw [List.get?_append (by simpa using hk), List.get?_map,
        List.get?_range (by simpa using hk)]
      simp
    | succ p' =>
      have hp' : rest.get? p' = some s := by simpa using hp
      have hbef : replicasBefore (s0 :: rest) (p' + 1)
          = s0.replicas + replicasBefore rest p' := by
        simp [replicasBefore]
      rw [hbef, expandFrom]
      rw [List.get?_append_right (by simp; omega)]
      simp only [List.length_map, List.length_range]
      have harith : s0.replicas + replicasBefore rest p' + k - s0.replicas
          = replicasBefore rest p' + k := by omega
      rw [harith]
      have := ih (j + s0.replicas) p' s hp' k hk
      rw [this]
      have harith2 : j + s0.replicas + replicasBefore rest p' + k
          = j + (s0.replicas + replicasBefore rest p') + k := by omega
      rw [harith2]

/-! ### Success and failure shape of `get_machines` -/

/-- Full characterization of a successful run of `get_machines`: the
machines are exactly the expansion, the validation conditions held, and
the returned cluster is the input cluster with only the two derived flags
possibly raised. -/
theorem get_machines_ok_elim (c : VagrantCluster) (ss : List VagrantMachineSet)
    (c' : VagrantCluster) (ms : List VagrantMachine)
    (h : get_machines c ss = .ok (c', ms)) :
    ms = expandMachines c ss ∧
    1 ≤ (withRole (expandMachines c ss) "Master").length ∧
    (1 < (withRole (expandMachines c ss) "Master").length →
      1 ≤ (withRole (expandMachines c ss) "Etcd").length ∧ c.pkiLocation ≠ "secrets") ∧
    c'.highavailability
      = (c.highavailability || decide (1 < (withRole (expandMachines c ss) "Master").length)) ∧
    c'.externalEtcd
      = (c.externalEtcd || decide (0 < (withRole (expandMachines c ss) "Etcd").length)) ∧
    c'.name = c.name ∧ c'.version = c.version ∧ c'.controlplane = c.controlplane ∧
    c'.certificateAuthority = c.certificateAuthority ∧ c'.pkiLocation = c.pkiLocation ∧
    c'.dnsAddon = c.dnsAddon ∧ c'.dnsDomain = c.dnsDomain ∧
    c'.networkAddon = c.networkAddon ∧ c'.serviceSubnet = c.serviceSubnet ∧
    c'.podSubnet = c.podSubnet ∧ c'.kubeletConfig = c.kubeletConfig ∧
    c'.extra_vars = c.extra_vars := by
  simp only [get_machines, finishMachines] at h
  split_ifs at h
  all_goals try exact Except.noConfusion h
  all_goals
    rw [Except.ok.injEq, Prod.mk.injEq] at h
    obtain ⟨hc, hm⟩ := h
    subst hc
    refine ⟨hm.symm, by omega,
      fun hlt => ⟨by omega, by first | assumption | omega⟩,
      by first
        | (rw [decide_eq_true (by omega)]; simp; done)
        | (rw [decide_eq_false (by omega)]; simp; done),
      by first
        | (rw [decide_eq_true (by omega)]; simp; done)
        | (rw [decide_eq_false (by omega)]; simp; done),
      rfl, rfl, rfl, rfl, rfl, rfl, rfl, rfl, rfl, rfl, rfl, rfl⟩

/-- When the validation conditions hold, `get_machines` succeeds with the
expanded machine list. -/
theorem get_machines_ok_intro (c : VagrantCluster) (ss : List VagrantMachineSet)
    (h1 : 1 ≤ (withRole (expandMachines c ss) "Master").length)
    (h2 : 1 < (withRole (expandMachines c ss) "Master").length →
      1 ≤ (withRole (expandMachines c ss) "Etcd").length ∧ c.pkiLocation ≠ "secrets") :
    ∃ c', get_machines c ss = .ok (c', expandMachines c ss) := by
  simp only [get_machines, finishMachines]
  split_ifs with h0 hm1 he hp <;>
    first
      | omega
      | exact absurd hp (h2 (by omega)).2
      | exact absurd he (by simpa using (h2 (by omega)).1.ne')
      | exact ⟨_, rfl⟩

/-- Claim C1, counterexample: the `replicas > 1` name suffix is the
cluster-wide machine counter `j`, not a 1-based index within the set.
With two two-replica sets the machines of the second set are named
`test-worker3` and `test-worker4`, where the claim requires suffixes
1..N within that set (`test-worker1`, `test-worker2`). -/
theorem claim_C1_counterexample :
    (get_machines clusterTest [setMaster, setWorker]).map (fun r => r.2.map (·.name))
      = .ok ["test-master1", "test-master2", "test-worker3", "test-worker4"] ∧
    ("test-worker3" : String) ≠ "test-worker1" :=
  ⟨rfl, by decide⟩

/-- Claim C1 (amended): for each machine set with replica count N the
expansion produces exactly N machines (the total is the sum of the
replica counts); the k-th machine of the set at position p is built with
counter value `1 + (replicas of the earlier sets) + k`, so it is named
`<cluster>-<set>` when N = 1 and `<cluster>-<set><j>` when N > 1, where
`j` is the cluster-wide machine counter (shared with the IP assignment,
not reset per set) — the suffixes within a set are consecutive but start
at the counter's current value, equalling 1..N only for a set preceded by
no machines; and a successful `get_machines` returns exactly these
machines. -/
theorem claim_C1_amended (c : VagrantCluster) (ss : List VagrantMachineSet)
    (p : Nat) (s : VagrantMachineSet) (hp : ss.get? p = some s)
    (k : Nat) (hk : k < s.replicas) :
    (expandMachines c ss).length = (ss.map (·.replicas)).sum ∧
    (expandMachines c ss).get? (replicasBefore ss p + k)
      = some (mkMachine c s (1 + replicasBefore ss p + k)) ∧
    (mkMachine c s (1 + replicasBefore ss p + k)).name
      = (if s.replicas = 1 then c.name ++ "-" ++ s.name
         else c.name ++ "-" ++ s.name ++ toString (1 + replicasBefore ss p + k)) ∧
    (∀ c' ms, get_machines c ss = .ok (c', ms) → ms = expandMachines c ss) := by
  refine ⟨expandFrom_length c ss 1, ?_, rfl,
    fun c' ms h => (get_machines_ok_elim c ss c' ms h).1⟩
  exact expandFrom_set_get? c ss 1 p s hp k hk

theorem claim_C1_amended_witness :
    (expandMachines clusterTest [setMaster, setWorker]).get?
        (replicasBefore [setMaster, setWorker] 1 + 0)
      = some (mkMachine clusterTest setWorker
          (1 + replicasBefore [setMaster, setWorker] 1 + 0)) :=
  (claim_C1_amended clusterTest [setMaster, setWorker] 1 setWorker rfl 0
    (by decide)).2.1

/-- Claim C2, counterexample: the IP is the string `"10.10.10.1"` with
the decimal counter appended, so from the 9th to the 10th machine the
address jumps from `10.10.10.19` to `10.10.10.110` — not an increment by
one (which would give `10.10.10.20`). -/
theorem claim_C2_counterexample :
    (get_machines clusterTest [setTen]).map (fun r => r.2.map (·.ip))
      = .ok ["10.10.10.11", "10.10.10.12", "10.10.10.13", "10.10.10.14",
             "10.10.10.15", "10.10.10.16", "10.10.10.17", "10.10.10.18",
             "10.10.10.19", "10.10.10.110"] ∧
    ("10.10.10.110" : String) ≠ "10.10.10.20" :=
  ⟨rfl, by decide⟩

theorem lastOctetVal_eq (j : Nat) :
    lastOctetVal j = 10 ^ (Nat.digits 10 j).length + j := by
  unfold lastOctetVal
  rw [Nat.ofDigits_append, Nat.ofDigits_digits, Nat.ofDigits_singleton]
  ring

theorem lastOctetVal_strictMono {a b : Nat} (ha : 0 < a) (hab : a < b) :
    lastOctetVal a < lastOctetVal b := by
  rw [lastOctetVal_eq, lastOctetVal_eq]
  have hlen : (Nat.digits 10 a).length ≤ (Nat.digits 10 b).length := by
    rw [Nat.digits_len 10 a (by norm_num) (by omega),
      Nat.digits_len 10 b (by norm_num) (by omega)]
    exact Nat.add_le_add_right (Nat.log_mono_right (le_of_lt hab)) 1
  have hpow : 10 ^ (Nat.digits 10 a).length ≤ 10 ^ (Nat.digits 10 b).length :=
    Nat.pow_le_pow_right (by norm_num) hlen
  omega

/-- Claim C2 (amended): each machine's IP comes from the single counter
shared across all machine sets (machine k of the whole cluster, 0-based,
uses counter value 1 + k) and is the fixed base `"10.10.10.1"` with the
counter's decimal digits appended.  The addresses increment by one per
machine only while the counter has a single digit; what holds in general
is that the numeric value of the final octet (the digit 1 followed by the
decimal digits of the counter, `lastOctetVal`) is strictly increasing
across the whole cluster. -/
theorem claim_C2_amended (c : VagrantCluster) (ss : List VagrantMachineSet) :
    (∀ k, k < (expandMachines c ss).length →
      ∃ s, s ∈ ss ∧ (expandMachines c ss).get? k = some (mkMachine c s (1 + k)) ∧
        (mkMachine c s (1 + k)).ip = "10.10.10.1" ++ toString (1 + k)) ∧
    (∀ a b, 0 < a → a < b → lastOctetVal a < lastOctetVal b) ∧
    (∀ j, lastOctetVal j = 10 ^ (Nat.digits 10 j).length + j) := by
  refine ⟨fun k hk => ?_, fun a b ha hab => lastOctetVal_strictMono ha hab,
    lastOctetVal_eq⟩
  obtain ⟨s, hs, heq⟩ := expandFrom_get? c ss 1 k hk
  exact ⟨s, hs, heq, rfl⟩

theorem claim_C2_amended_witness :
    ∃ s, s ∈ [setTen] ∧
      (expandMachines clusterTest [setTen]).get? 9
        = some (mkMachine clusterTest s (1 + 9)) ∧
      (mkMachine clusterTest s (1 + 9)).ip = "10.10.10.1" ++ toString (1 + 9) :=
  (claim_C2_amended clusterTest [setTen]).1 9 (by decide)

/-- Claim C3: after building all machines, `get_machines` validates the
cluster-wide invariants in order and fails fast with a ConsistencyError:
no Master-role machine fails with the at-least-one-Master error; with
more than one Master and no Etcd-role machine it fails with the
external-etcd error (in particular for every machine list with at least
two Masters and zero Etcds); with more than one Master, an Etcd present
and the cluster's PKI location "secrets" it fails with the
certificates-in-secrets error. -/
theorem claim_C3 (c : VagrantCluster) (ss : List VagrantMachineSet) :
    ((withRole (expandMachines c ss) "Master").length = 0 →
      get_machines c ss = .error (.consistencyError
        "Invalid cluster definition. At least one Master machine is required")) ∧
    (2 ≤ (withRole (expandMachines c ss) "Master").length →
      (withRole (expandMachines c ss) "Etcd").length = 0 →
      get_machines c ss = .error (.consistencyError
        "Invalid cluster definition. Multi masters requires external etcd.")) ∧
    (2 ≤ (withRole (expandMachines c ss) "Master").length →
      1 ≤ (withRole (expandMachines c ss) "Etcd").length →
      c.pkiLocation = "secrets" →
      get_machines c ss = .error (.consistencyError
        "Invalid cluster definition. Multi masters does not support certificates in secrets yet.")) := by
  refine ⟨fun h0 => ?_, fun hm he => ?_, fun hm he hp => ?_⟩
  · simp only [get_machines]
    rw [if_pos h0]
  · simp only [get_machines]
    rw [if_neg (by omega), if_pos (by omega), if_pos he]
  · simp only [get_machines]
    rw [if_neg (by omega), if_pos (by omega), if_neg (by omega), if_pos hp]

theorem claim_C3_witness :
    get_machines clusterTest [setMastersOnly] = .error (.consistencyError
      "Invalid cluster definition. Multi masters requires external etcd.") :=
  (claim_C3 clusterTest [setMastersOnly]).2.1 (by decide) (by decide)

/-- Claim C4: when `get_machines` succeeds on a cluster whose derived
flags start out `false` (as `VagrantCluster.__init__` leaves them),
`highavailability` is true iff more than one machine carries the Master
role and `externalEtcd` is true iff at least one machine carries the Etcd
role; and every expansion with at least two Masters, at least one Etcd
and PKI location other than "secrets" succeeds with `highavailability`
true. -/
theorem claim_C4 (c : VagrantCluster) (ss : List VagrantMachineSet)
    (hha : c.highavailability = false) (hee : c.externalEtcd = false) :
    (∀ c' ms, get_machines c ss = .ok (c', ms) →
      ((c'.highavailability = true ↔ 1 < (withRole ms "Master").length) ∧
       (c'.externalEtcd = true ↔ 0 < (withRole ms "Etcd").length))) ∧
    (2 ≤ (withRole (expandMachines c ss) "Master").length →
      1 ≤ (withRole (expandMachines c ss) "Etcd").length →
      c.pkiLocation ≠ "secrets" →
      ∃ c', get_machines c ss = .ok (c', expandMachines c ss) ∧
        c'.highavailability = true) := by
  constructor
  · intro c' ms h
    obtain ⟨hm, -, -, hha', hee', -⟩ := get_machines_ok_elim c ss c' ms h
    subst hm
    rw [hha', hee', hha, hee]
    simp
  · intro hm he hp
    obtain ⟨c', hok⟩ :=
      get_machines_ok_intro c ss (by omega) (fun _ => ⟨he, hp⟩)
    refine ⟨c', hok, ?_⟩
    obtain ⟨-, -, -, hha', -⟩ := get_machines_ok_elim c ss c' _ hok
    rw [hha', hha, decide_eq_true (by omega)]
    simp

theorem claim_C4_witness :
    ∃ c', get_machines clusterTest [setMaster, setWorker]
        = .ok (c', expandMachines clusterTest [setMaster, setWorker]) ∧
      c'.highavailability = true :=
  (claim_C4 clusterTest [setMaster, setWorker] rfl rfl).2
    (by decide) (by decide) (by decide)

/-- Claim C9: a successful `get_machines` run changes nothing except the
two derived cluster flags — the machines returned are exactly the ones
constructed by the expansion (and are not further modified), and every
cluster field other than `highavailability` and `externalEtcd` is
unchanged.  (The machine-set records are read but never written by the
source, so their preservation is structural in this pure embedding.) -/
theorem claim_C9 (c : VagrantCluster) (ss : List VagrantMachineSet)
    (c' : VagrantCluster) (ms : List VagrantMachine)
    (h : get_machines c ss = .ok (c', ms)) :
    ms = expandMachines c ss ∧
    c'.name = c.name ∧ c'.version = c.version ∧ c'.controlplane = c.controlplane ∧
    c'.certificateAuthority = c.certificateAuthority ∧ c'.pkiLocation = c.pkiLocation ∧
    c'.dnsAddon = c.dnsAddon ∧ c'.dnsDomain = c.dnsDomain ∧
    c'.networkAddon = c.networkAddon ∧ c'.serviceSubnet = c.serviceSubnet ∧
    c'.podSubnet = c.podSubnet ∧ c'.kubeletConfig = c.kubeletConfig ∧
    c'.extra_vars = c.extra_vars := by
  obtain ⟨hm, -, -, -, -, hrest⟩ := get_machines_ok_elim c ss c' ms h
  exact ⟨hm, hrest⟩

theorem claim_C9_witness :
    ({ clusterTest with highavailability := true, externalEtcd := true }
        : VagrantCluster).pkiLocation = clusterTest.pkiLocation :=
  (claim_C9 clusterTest [setMaster, setWorker]
    { clusterTest with highavailability := true, externalEtcd := true }
    (expandMachines clusterTest [setMaster, setWorker]) (by rfl)).2.2.2.2.2.1

/-! ### Parse-time consistency (C5) -/

/-- Claim C5: whenever the field-resolution phase of `get_cluster`
succeeds with a resolved PKI location of "secrets" and a resolved
controlplane mode other than "selfHosting", `get_cluster` fails with the
ConsistencyError of lines 140-142.  (`get_cluster` is invoked from
`parse`, before `get_machines` ever runs, so no Machine has been expanded
at that point.) -/
theorem claim_C5 (data : Yaml) (c : VagrantCluster)
    (h : extractClusterFields data = .ok c)
    (hp : c.pkiLocation = "secrets") (hcp : c.controlplane ≠ "selfHosting") :
    get_cluster data = .error (.consistencyError
      "Invalid cluster definition. PKILocation can be secrets only if controlplane is self hosted") := by
  unfold get_cluster
  rw [h]
  dsimp only
  rw [if_pos ⟨hp, hcp⟩]

theorem claim_C5_witness :
    get_cluster secretsDoc = .error (.consistencyError
      "Invalid cluster definition. PKILocation can be secrets only if controlplane is self hosted") :=
  claim_C5 secretsDoc clusterSecrets (by rfl) rfl (by decide)

/-! ### The config accessor (C6) -/

/-- Claim C6, counterexample: when the traversal reaches a non-mapping
value with segments left, the subscript raises a `TypeError`, which
`getx` does not catch — the caller-supplied default is *not* returned and
no MissingKeyError naming the path is raised, although the segment is
absent. -/
theorem claim_C6_counterexample :
    getx (.map [("a", .int 5)]) "a.b" (.int 7) none = .error .typeError ∧
    (Except.error PyErr.typeError : Except PyErr Yaml) ≠ .ok (.int 7) ∧
    (Except.error PyErr.typeError : Except PyErr Yaml)
      ≠ .error (.missingKeyError "a.b") :=
  ⟨rfl, fun h => Except.noConfusion h, fun h => by
    rw [Except.error.injEq] at h
    exact PyErr.noConfusion h⟩

/-- The behaviour of the `getx` loop in terms of the raw traversal: a
full resolution applies the validator (when supplied) and returns the
value, a `KeyError` along the way returns the default when given and the
`KeyError` naming the full dotted path otherwise, and any other error —
in particular the `TypeError` of subscripting a non-mapping — propagates
unchanged. -/
theorem getxGo_eq (keys : String) (dflt : Yaml)
    (vld : Option (Yaml → Except PyErr Unit)) :
    ∀ segs data, getxGo keys dflt vld data segs =
      match getxTraverse data segs with
      | .ok v =>
        (match vld with
         | none => .ok v
         | some f => match f v with | .ok _ => .ok v | .error e => .error e)
      | .error (.keyError _) =>
        (match dflt with
         | .null => .error (.missingKeyError keys)
         | d => .ok d)
      | .error e => .error e := by
  intro segs
  induction segs with
  | nil => intro data; rfl
  | cons key rest ih =>
    intro data
    rw [getxGo, getxTraverse, getxStep.eq_def]
    cases hpy : pyGetItem data key with
    | ok d => simpa using ih d
    | error e => cases e <;> simp

/-- Claim C6 (amended): `getx` traverses the dotted path in order; when a
traversed mapping lacks its segment key it returns the caller-supplied
default when one was given and otherwise fails with the KeyError naming
the full dotted path (the validator is skipped on the default path); when
the full path resolves, the supplied validator is invoked on the resolved
value, any failure propagating, before the value is returned; but when
the traversal subscripts a non-mapping value, the resulting `TypeError`
propagates and the default is not applied.  (`getx` rebinds only its
local variable, so the input mapping is unchanged — in this pure
embedding that is structural.) -/
theorem claim_C6_amended (data : Yaml) (keys : String) (dflt : Yaml)
    (vld : Option (Yaml → Except PyErr Unit)) :
    (∀ v, getxTraverse data (pySplitDot keys) = .ok v →
      getx data keys dflt vld =
        (match vld with
         | none => .ok v
         | some f => match f v with | .ok _ => .ok v | .error e => .error e)) ∧
    (∀ k, getxTraverse data (pySplitDot keys) = .error (.keyError k) →
      getx data keys dflt vld =
        (match dflt with
         | .null => .error (.missingKeyError keys)
         | d => .ok d)) ∧
    (getxTraverse data (pySplitDot keys) = .error .typeError →
      getx data keys dflt vld = .error .typeError) := by
  have hgo := getxGo_eq keys dflt vld (pySplitDot keys) data
  refine ⟨fun v hv => ?_, fun k hk => ?_, fun ht => ?_⟩
  · unfold getx; rw [hgo, hv]
  · unfold getx; rw [hgo, hk]
  · unfold getx; rw [hgo, ht]

theorem claim_C6_amended_witness :
    getx (.map [("a", .map [("b", .int 3)])]) "a.b" .null none = .ok (.int 3) :=
  (claim_C6_amended (.map [("a", .map [("b", .int 3)])]) "a.b" .null none).1
    (.int 3) rfl

/-! ### The parse pass (C7, C10) -/

/-- Claim C7: after scanning all documents, `parse` is meant to fail with
a configuration `ValueError` when no Cluster document was found and when
no MachineSet documents were found; but both raise statements (lines 102
and 105) format their message with the unbound name `spec`, so Python
raises `NameError: name 'spec' is not defined` instead.  With both kinds
of document present the parse returns the Cluster record and the
MachineSet list. -/
theorem claim_C7_bug :
    parse [("machineset.yml", msDoc)] = .error (.nameError "spec") ∧
    parse [("cluster.yml", clusterDoc)] = .error (.nameError "spec") ∧
    parse [("cluster.yml", clusterDoc), ("machineset.yml", msDoc)]
      = .ok (clusterTest, [msWorkers]) :=
  ⟨rfl, rfl, rfl⟩

/-- Claim C10, counterexample: earlier Cluster documents are not ignored
— each one is parsed in file order, so an invalid earlier Cluster
document fails the whole pass even though the later Cluster document and
a MachineSet are present and would parse on their own. -/
theorem claim_C10_counterexample :
    parse [("bad.yml", badClusterDoc), ("cluster.yml", clusterDoc),
           ("machineset.yml", msDoc)]
      = .error (.parseError "bad.yml" (.validationError "invalid RFC1123 label")) ∧
    parse [("cluster.yml", clusterDoc), ("machineset.yml", msDoc)]
      = .ok (clusterTest, [msWorkers]) :=
  ⟨rfl, rfl⟩

theorem parseStep_cluster (data : Yaml) (acc : Option VagrantCluster)
    (ms : List VagrantMachineSet) (h : isClusterDoc data = true) :
    parseStep data acc ms = (get_cluster data).map (fun c => (some c, ms)) := by
  unfold isClusterDoc at h
  rw [parseStep.eq_def]
  cases hpy : pyGetItem data "kind" with
  | error e => rw [hpy] at h; simp at h
  | ok k =>
    rw [hpy] at h
    cases k <;> simp at h
    next s =>
      subst h
      simp only [if_pos rfl]
      cases get_cluster data <;> rfl

theorem parseStep_noncluster (data : Yaml) (acc : Option VagrantCluster)
    (ms : List VagrantMachineSet)
    (res : Option VagrantCluster × List VagrantMachineSet)
    (h : isClusterDoc data = false)
    (hs : parseStep data acc ms = .ok res) : res.1 = acc := by
  unfold isClusterDoc at h
  rw [parseStep.eq_def] at hs
  cases hpy : pyGetItem data "kind" with
  | error e => rw [hpy] at hs; exact Except.noConfusion hs
  | ok k =>
    rw [hpy] at h hs
    dsimp only at h hs
    cases k
    case str s =>
      dsimp only at h hs
      simp only [decide_eq_false_iff_not] at h
      rw [if_neg h] at hs
      split_ifs at hs
      · cases hms : get_machineSet data with
        | error e => rw [hms] at hs; exact Except.noConfusion hs
        | ok m =>
          rw [hms] at hs
          rw [Except.ok.injEq] at hs
          rw [← hs]
      · rw [Except.ok.injEq] at hs
        rw [← hs]
    all_goals (rw [Except.ok.injEq] at hs; rw [← hs])

/-- Running the parse loop: the cluster component of a successful run is
built from the last document of kind Cluster, and is the incoming
accumulator when there is none. -/
theorem parseLoop_cluster_src :
    ∀ (docs : List (String × Yaml)) (acc : Option VagrantCluster)
      (ms0 : List VagrantMachineSet) res,
      parseLoop docs acc ms0 = .ok res →
      (match (docs.filter (fun p => isClusterDoc p.2)).getLast? with
       | some fd => ∃ cr, get_cluster fd.2 = .ok cr ∧ res.1 = some cr
       | none => res.1 = acc) := by
  intro docs
  induction docs with
  | nil =>
    intro acc ms0 res h
    rw [parseLoop] at h
    rw [Except.ok.injEq] at h
    simp [← h]
  | cons fd rest ih =>
    intro acc ms0 res h
    obtain ⟨f, d⟩ := fd
    rw [parseLoop] at h
    cases hstep : parseStep d acc ms0 with
    | error e => rw [hstep] at h; exact Except.noConfusion h
    | ok r =>
      rw [hstep] at h
      dsimp only at h
      obtain ⟨c1, ms1⟩ := r
      cases hcd : isClusterDoc d with
      | true =>
        rw [parseStep_cluster d acc ms0 hcd] at hstep
        cases hgc : get_cluster d with
        | error e => rw [hgc] at hstep; exact Except.noConfusion hstep
        | ok cd =>
          rw [hgc] at hstep
          simp [Except.map] at hstep
          have hrest := ih c1 ms1 res h
          rw [List.filter_cons_of_pos (by simpa using hcd)]
          cases hfl : (rest.filter (fun p => isClusterDoc p.2)).getLast? with
          | some fd' =>
            rw [hfl] at hrest
            rw [List.getLast?_cons, hfl]
            simpa using hrest
          | none =>
            rw [hfl] at hrest
            have hempty : rest.filter (fun p => isClusterDoc p.2) = [] := by
              cases hf : rest.filter (fun p => isClusterDoc p.2) with
              | nil => rfl
              | cons a l => rw [hf] at hfl; simp [List.getLast?] at hfl
            rw [hempty]
            simp only [List.getLast?_singleton]
            exact ⟨cd, hgc, by rw [hrest, ← hstep.1]⟩
      | false =>
        have hacc : c1 = acc := parseStep_noncluster d acc ms0 (c1, ms1) hcd hstep
        subst hacc
        rw [List.filter_cons_of_neg (by simpa using hcd)]
        exact ih c1 ms1 res h

/-- Claim C10 (amended): more than one Cluster document does not fail the
pass by itself — the cluster variable is simply rebound, so the returned
Cluster record is the one built from the last Cluster document in
enumeration order; but every Cluster document is still parsed in order,
so an invalid earlier one fails the whole pass (see the
counterexample). -/
theorem claim_C10_amended (docs : List (String × Yaml)) (c : VagrantCluster)
    (ms : List VagrantMachineSet) (h : parse docs = .ok (c, ms)) :
    ∃ fd, (docs.filter (fun p => isClusterDoc p.2)).getLast? = some fd ∧
      get_cluster fd.2 = .ok c := by
  unfold parse at h
  cases hl : parseLoop docs none [] with
  | error e => rw [hl] at h; exact Except.noConfusion h
  | ok r =>
    rw [hl] at h
    obtain ⟨copt, ms'⟩ := r
    cases copt with
    | none => simp at h
    | some c0 =>
      dsimp only at h
      split_ifs at h with hlen
      · rw [Except.ok.injEq, Prod.mk.injEq] at h
        obtain ⟨hc, -⟩ := h
        have := parseLoop_cluster_src docs none [] (some c0, ms') hl
        cases hfl : (docs.filter (fun p => isClusterDoc p.2)).getLast? with
        | none => rw [hfl] at this; exact Option.noConfusion this
        | some fd =>
          rw [hfl] at this
          obtain ⟨cr, hcr, heq⟩ := this
          refine ⟨fd, rfl, ?_⟩
          have hcrc : cr = c := by
            have h1 : some c0 = some cr := heq
            injection h1 with h1
            rw [← h1, hc]
          rw [← hcrc]
          exact hcr

theorem claim_C10_amended_witness :
    ∃ fd,
      ([("cluster.yml", clusterDoc), ("beta.yml", clusterDocBeta),
        ("machineset.yml", msDoc)].filter
          (fun p => isClusterDoc p.2)).getLast? = some fd ∧
      get_cluster fd.2 = .ok clusterBeta :=
  claim_C10_amended
    [("cluster.yml", clusterDoc), ("beta.yml", clusterDocBeta),
     ("machineset.yml", msDoc)]
    clusterBeta [msWorkers] (by rfl)


theorem pySplitDot_example : pySplitDot "a.b.c" = ["a", "b", "c"] := rfl

theorem getx_example_hit :
    getx (.map [("a", .map [("b", .int 3)])]) "a.b" = .ok (.int 3) := rfl

theorem getx_example_default :
    getx (.map [("a", .map [])]) "a.b" (.int 7) = .ok (.int 7) := rfl

theorem getx_example_missing :
    getx (.map [("a", .map [])]) "a.b" = .error (.missingKeyError "a.b") := rfl

theorem lookaheadOk_iff {cs : List Char} :
    lookaheadOk cs = true ↔
      ∃ A B C D t,
        cs = A ++ '.' :: (B ++ '.' :: (C ++ '.' :: (D ++ t))) ∧
        (A ≠ [] ∧ A.all Char.isDigit) ∧ (B ≠ [] ∧ B.all Char.isDigit) ∧
        (C ≠ [] ∧ C.all Char.isDigit) ∧ (D ≠ [] ∧ D.all Char.isDigit) ∧
        (t = [] ∨ ∃ u, t = '/' :: u) := by
  constructor
  · intro h
    rw [lookaheadOk, List.any_eq_true] at h
    obtain ⟨r1, hm1, hb1⟩ := h
    cases r1 with
    | nil => simp at hb1
    | cons c1 r2 =>
      rw [Bool.and_eq_true, decide_eq_true_eq] at hb1
      obtain ⟨hc1, hb1⟩ := hb1
      subst hc1
      rw [List.any_eq_true] at hb1
      obtain ⟨r3, hm3, hb3⟩ := hb1
      cases r3 with
      | nil => simp at hb3
      | cons c2 r4 =>
        rw [Bool.and_eq_true, decide_eq_true_eq] at hb3
        obtain ⟨hc2, hb3⟩ := hb3
        subst hc2
        rw [List.any_eq_true] at hb3
        obtain ⟨r5, hm5, hb5⟩ := hb3
        cases r5 with
        | nil => simp at hb5
        | cons c3 r6 =>
          rw [Bool.and_eq_true, decide_eq_true_eq] at hb5
          obtain ⟨hc3, hb5⟩ := hb5
          subst hc3
          rw [List.any_eq_true] at hb5
          obtain ⟨r7, hm7, hb7⟩ := hb5
          obtain ⟨A, hA, hAd, hcs⟩ := dplusRems_mem.mp hm1
          obtain ⟨B, hB, hBd, hr2⟩ := dplusRems_mem.mp hm3
          obtain ⟨C, hC, hCd, hr4⟩ := dplusRems_mem.mp hm5
          obtain ⟨D, hD, hDd, hr6⟩ := dplusRems_mem.mp hm7
          refine ⟨A, B, C, D, r7, ?_, ⟨hA, hAd⟩, ⟨hB, hBd⟩, ⟨hC, hCd⟩, ⟨hD, hDd⟩, ?_⟩
          · rw [hcs, hr2, hr4, hr6]
          · rw [Bool.or_eq_true] at hb7
            rcases hb7 with h7 | h7
            · left; exact List.isEmpty_iff.mp h7
            · cases r7 with
              | nil => simp at h7
              | cons c4 u =>
                right
                rw [decide_eq_true_eq] at h7
                exact ⟨u, by rw [h7]⟩
  · intro ⟨A, B, C, D, t, hcs, ⟨hA, hAd⟩, ⟨hB, hBd⟩, ⟨hC, hCd⟩, ⟨hD, hDd⟩, ht⟩
    rw [lookaheadOk, List.any_eq_true]
    refine ⟨'.' :: (B ++ '.' :: (C ++ '.' :: (D ++ t))), ?_, ?_⟩
    · exact dplusRems_mem.mpr ⟨A, hA, hAd, hcs⟩
    · rw [Bool.and_eq_true, decide_eq_true_eq]
      refine ⟨rfl, ?_⟩
      rw [List.any_eq_true]
      refine ⟨'.' :: (C ++ '.' :: (D ++ t)), dplusRems_mem.mpr ⟨B, hB, hBd, rfl⟩, ?_⟩
      rw [Bool.and_eq_true, decide_eq_true_eq]
      refine ⟨rfl, ?_⟩
      rw [List.any_eq_true]
      refine ⟨'.' :: (D ++ t), dplusRems_mem.mpr ⟨C, hC, hCd, rfl⟩, ?_⟩
      rw [Bool.and_eq_true, decide_eq_true_eq]
      refine ⟨rfl, ?_⟩
      rw [List.any_eq_true]
      refine ⟨t, dplusRems_mem.mpr ⟨D, hD, hDd, rfl⟩, ?_⟩
      rcases ht with ht | ⟨u, ht⟩
      · subst ht; rfl
      · subst ht; rfl


theorem octRems_sound {cs r : List Char} (h : r ∈ octRems cs) :
    ∃ w, cs = w ++ r ∧ isOctet w = true := by
  unfold octRems at h
  rw [List.mem_append] at h
  rcases h with h | h
  · -- the [1-9]?\d branch
    cases cs with
    | nil => simp at h
    | cons a t1 =>
      cases t1 with
      | nil =>
        dsimp only at h
        split_ifs at h with hc
        · rw [List.mem_singleton] at h
          subst h
          exact ⟨[a], rfl, by simpa [isOctet] using hc⟩
        · simp at h
      | cons b t2 =>
        dsimp only at h
        rw [List.mem_append] at h
        rcases h with h | h <;> split_ifs at h with hc <;>
          first
            | (simp at h; done)
            | (rw [List.mem_singleton] at h
               subst h
               first
                 | exact ⟨[a, b], rfl, by simpa [isOctet] using hc⟩
                 | exact ⟨[a], rfl, by simpa [isOctet] using hc⟩)
  · -- the three-digit branches
    cases cs with
    | nil => simp at h
    | cons a t1 =>
      cases t1 with
      | nil => simp at h
      | cons b t2 =>
        cases t2 with
        | nil => simp at h
        | cons c t3 =>
          dsimp only at h
          rw [List.mem_append, List.mem_append] at h
          rcases h with (h | h) | h <;> split_ifs at h with hc <;>
            first
              | (simp at h; done)
              | (rw [List.mem_singleton] at h
                 subst h
                 refine ⟨[a, b, c], rfl, ?_⟩
                 simp only [isOctet, decide_eq_true_eq]
                 tauto)



theorem isDigit_of_between {lo hi c : Char} (hlo : lo ≤ c) (hhi : c ≤ hi)
    (h1 : 48 ≤ lo.toNat) (h2 : hi.toNat ≤ 57) : c.isDigit = true := by
  rw [char_isDigit_iff]
  exact ⟨le_trans h1 (char_le_iff_toNat.mp hlo),
    le_trans (char_le_iff_toNat.mp hhi) h2⟩

theorem isOctet_shape {w : List Char} (h : isOctet w = true) :
    w ≠ [] ∧ w.all Char.isDigit = true := by
  match w with
  | [a] =>
    simp only [isOctet] at h
    exact ⟨by simp, by simp [h]⟩
  | [a, b] =>
    simp only [isOctet, decide_eq_true_eq] at h
    obtain ⟨⟨h1, h2⟩, h3⟩ := h
    have ha := isDigit_of_between h1 h2 (by decide) (by decide)
    exact ⟨by simp, by simp [ha, h3]⟩
  | [a, b, c] =>
    simp only [isOctet, decide_eq_true_eq] at h
    refine ⟨by simp, ?_⟩
    rcases h with ⟨h1, h2, h3⟩ | ⟨h1, ⟨h2a, h2b⟩, h3⟩ | ⟨h1, h2, h3a, h3b⟩
    · subst h1
      simp [h2, h3, show ('1' : Char).isDigit = true by decide]
    · subst h1
      have hb := isDigit_of_between h2a h2b (by decide) (by decide)
      simp [hb, h3, show ('2' : Char).isDigit = true by decide]
    · subst h1; subst h2
      have hc := isDigit_of_between h3a h3b (by decide) (by decide)
      simp [hc, show ('2' : Char).isDigit = true by decide,
        show ('5' : Char).isDigit = true by decide]
  | [] => simp [isOctet] at h
  | _ :: _ :: _ :: _ :: _ => simp [isOctet] at h


theorem octRems_complete {w : List Char} (h : isOctet w = true) (r : List Char) :
    r ∈ octRems (w ++ r) := by
  match w with
  | [a] =>
    simp only [isOctet] at h
    cases r with
    | nil =>
      show [] ∈ octRems [a]
      unfold octRems
      rw [List.mem_append]
      left
      dsimp only
      rw [if_pos h]
      exact List.mem_singleton.mpr rfl
    | cons b r' =>
      show b :: r' ∈ octRems (a :: b :: r')
      unfold octRems
      rw [List.mem_append]
      left
      dsimp only
      rw [List.mem_append]
      right
      rw [if_pos h]
      exact List.mem_singleton.mpr rfl
  | [a, b] =>
    simp only [isOctet, decide_eq_true_eq] at h
    show r ∈ octRems (a :: b :: r)
    unfold octRems
    rw [List.mem_append]
    left
    dsimp only
    rw [List.mem_append]
    left
    rw [if_pos h]
    exact List.mem_singleton.mpr rfl
  | [a, b, c] =>
    simp only [isOctet, decide_eq_true_eq] at h
    show r ∈ octRems (a :: b :: c :: r)
    unfold octRems
    rw [List.mem_append]
    right
    dsimp only
    rw [List.mem_append, List.mem_append]
    rcases h with h | h | h
    · left; left
      rw [if_pos h]
      exact List.mem_singleton.mpr rfl
    · left; right
      rw [if_pos h]
      exact List.mem_singleton.mpr rfl
    · right
      rw [if_pos h]
      exact List.mem_singleton.mpr rfl
  | [] => simp [isOctet] at h
  | _ :: _ :: _ :: _ :: _ => simp [isOctet] at h

theorem groupRems_sound {cs r : List Char} (h : r ∈ groupRems cs) :
    ∃ (w : List Char) (dot : Bool), isOctet w = true ∧
      cs = w ++ (if dot then '.' :: r else r) := by
  unfold groupRems at h
  rw [List.mem_flatMap] at h
  obtain ⟨a, ha, hmem⟩ := h
  obtain ⟨w, hcs, hoct⟩ := octRems_sound ha
  cases a with
  | nil =>
    rw [List.mem_singleton] at hmem
    subst hmem
    exact ⟨w, false, hoct, by simpa using hcs⟩
  | cons c r2 =>
    dsimp only at hmem
    by_cases hc : c = '.'
    · rw [if_pos hc] at hmem
      rcases List.mem_cons.mp hmem with hmem | hmem
      · subst hmem
        subst hc
        exact ⟨w, true, hoct, by simpa using hcs⟩
      · rw [List.mem_singleton] at hmem
        subst hmem
        exact ⟨w, false, hoct, by simpa using hcs⟩
    · rw [if_neg hc] at hmem
      rw [List.mem_singleton] at hmem
      subst hmem
      exact ⟨w, false, hoct, by simpa using hcs⟩

theorem groupRems_complete_dot {w : List Char} (h : isOctet w = true)
    (r : List Char) : r ∈ groupRems (w ++ '.' :: r) := by
  unfold groupRems
  rw [List.mem_flatMap]
  refine ⟨'.' :: r, octRems_complete h ('.' :: r), ?_⟩
  simp

theorem groupRems_complete_nodot {w : List Char} (h : isOctet w = true)
    (r : List Char) : r ∈ groupRems (w ++ r) := by
  unfold groupRems
  rw [List.mem_flatMap]
  refine ⟨r, octRems_complete h r, ?_⟩
  cases r with
  | nil => simp
  | cons c r2 =>
    by_cases hc : c = '.'
    · simp [hc]
    · simp [hc]

theorem groupPow_sound {n : Nat} :
    ∀ {cs R : List Char}, R ∈ groupPow n cs →
      ∃ chunks : List (List Char × Bool), chunks.length = n ∧
        (∀ p ∈ chunks, isOctet p.1 = true) ∧ chunksJoin chunks R = cs := by
  induction n with
  | zero =>
    intro cs R h
    rw [groupPow, List.mem_singleton] at h
    exact ⟨[], rfl, by simp, by rw [chunksJoin, h]⟩
  | succ n ih =>
    intro cs R h
    rw [groupPow, List.mem_flatMap] at h
    obtain ⟨r1, hr1, hR⟩ := h
    obtain ⟨chunks', hlen, hoct, hjoin⟩ := ih hR
    obtain ⟨w, dot, hwoct, hcs⟩ := groupRems_sound hr1
    refine ⟨(w, dot) :: chunks', by simp [hlen], ?_, ?_⟩
    · intro p hp
      rcases List.mem_cons.mp hp with hp | hp
      · subst hp; exact hwoct
      · exact hoct p hp
    · rw [chunksJoin, hcs, hjoin]

theorem digit_prefix_cases :
    ∀ {w X r T : List Char},
      w ++ X = r ++ T → w.all Char.isDigit = true → r.all Char.isDigit = true →
      (∀ c cs', T = c :: cs' → c.isDigit = false) →
      ∃ e, r = w ++ e ∧ X = e ++ T ∧ e.all Char.isDigit = true := by
  intro w
  induction w with
  | nil =>
    intro X r T h _ hr _
    exact ⟨r, rfl, by simpa using h, hr⟩
  | cons c w' ih =>
    intro X r T h hw hr hT
    rw [List.all_cons, Bool.and_eq_true] at hw
    cases r with
    | nil =>
      rw [List.nil_append] at h
      have := hT c (w' ++ X) h.symm
      rw [hw.1] at this
      exact absurd this (by simp)
    | cons d r' =>
      rw [List.cons_append, List.cons_append] at h
      injection h with hcd h
      subst hcd
      rw [List.all_cons, Bool.and_eq_true] at hr
      obtain ⟨e, hre, hX, hed⟩ := ih h hw.2 hr.2 hT
      exact ⟨e, by rw [List.cons_append, hre], hX, hed⟩

theorem chunks_align :
    ∀ (chunks : List (List Char × Bool)) (runs : List (List Char))
      (t R : List Char),
      runs ≠ [] →
      (∀ rn ∈ runs, rn ≠ [] ∧ rn.all Char.isDigit = true) →
      (∀ p ∈ chunks, p.1 ≠ [] ∧ p.1.all Char.isDigit = true) →
      TailSafe t → TailSafe R →
      chunksJoin chunks R = runsJoin runs t →
      runs.length ≤ chunks.length ∧
        (chunks.length = runs.length → chunks.map Prod.fst = runs ∧ R = t) := by
  intro chunks
  induction chunks with
  | nil =>
    intro runs t R hne hruns _ ht hR heq
    rw [chunksJoin] at heq
    cases runs with
    | nil => exact absurd rfl hne
    | cons r rs =>
      obtain ⟨hrne, hrd⟩ := hruns r (List.mem_cons_self _ _)
      cases r with
      | nil => exact absurd rfl hrne
      | cons c r' =>
        rw [List.all_cons, Bool.and_eq_true] at hrd
        have hhead : ∃ rest, R = c :: rest := by
          cases rs with
          | nil => exact ⟨r' ++ t, by simpa [runsJoin] using heq⟩
          | cons r2 rs' =>
            exact ⟨r' ++ '.' :: runsJoin (r2 :: rs') t,
              by simpa [runsJoin] using heq⟩
        obtain ⟨rest, hrest⟩ := hhead
        have := (hR c rest hrest).1
        rw [hrd.1] at this
        exact absurd this (by simp)
  | cons chunk cs ihc =>
    intro runs t R hne hruns hchunks ht hR heq
    obtain ⟨w, dot⟩ := chunk
    obtain ⟨hwne, hwd⟩ := hchunks (w, dot) (List.mem_cons_self _ _)
    have hchunks' : ∀ p ∈ cs, p.1 ≠ [] ∧ p.1.all Char.isDigit = true :=
      fun p hp => hchunks p (List.mem_cons_of_mem _ hp)
    cases runs with
    | nil => exact absurd rfl hne
    | cons r rs =>
      obtain ⟨hrne, hrd⟩ := hruns r (List.mem_cons_self _ _)
      rw [chunksJoin] at heq
      cases rs with
      | nil =>
        -- one run left: w ++ X = r ++ t
        rw [show runsJoin [r] t = r ++ t from rfl] at heq
        obtain ⟨e, hre, hX, hed⟩ :=
          digit_prefix_cases heq hwd hrd (fun c cs' hh => (ht c cs' hh).1)
        cases dot with
        | true =>
          -- '.' :: chunksJoin cs R = e ++ t is impossible
          exfalso
          rw [if_pos rfl] at hX
          cases e with
          | nil =>
            rw [List.nil_append] at hX
            exact absurd ((ht '.' (chunksJoin cs R) hX.symm).2) (by simp)
          | cons c e' =>
            rw [List.cons_append] at hX
            injection hX with hc _
            have : c.isDigit = true := by
              rw [List.all_cons, Bool.and_eq_true] at hed
              exact hed.1
            rw [← hc] at this
            exact absurd this (by simp)
        | false =>
          rw [if_neg (by simp)] at hX
          cases e with
          | nil =>
            -- w = r, chunksJoin cs R = t
            rw [List.nil_append] at hX
            rw [List.append_nil] at hre
            cases cs with
            | nil =>
              rw [chunksJoin] at hX
              refine ⟨by simp, fun _ => ⟨by simp [← hre], hX⟩⟩
            | cons chunk2 cs' =>
              exfalso
              obtain ⟨w2, d2⟩ := chunk2
              obtain ⟨hw2ne, hw2d⟩ := hchunks' (w2, d2) (List.mem_cons_self _ _)
              cases w2 with
              | nil => exact absurd rfl hw2ne
              | cons c2 w2' =>
                rw [chunksJoin, List.cons_append] at hX
                have := (ht c2 _ hX.symm).1
                rw [List.all_cons, Bool.and_eq_true] at hw2d
                rw [hw2d.1] at this
                exact absurd this (by simp)
          | cons c e' =>
            -- strictly inside the run
            cases cs with
            | nil =>
              exfalso
              rw [chunksJoin] at hX
              have := (hR c _ (by rw [hX, List.cons_append])).1
              rw [List.all_cons, Bool.and_eq_true] at hed
              rw [hed.1] at this
              exact absurd this (by simp)
            | cons chunk2 cs' =>
              have hres := ihc [c :: e'] t R (by simp)
                (fun rn hrn => by
                  rw [List.mem_singleton] at hrn
                  subst hrn
                  exact ⟨by simp, hed⟩)
                hchunks' ht hR
                (by rw [show runsJoin [c :: e'] t = (c :: e') ++ t from rfl, hX])
              refine ⟨by simp, fun hlen => ?_⟩
              exfalso
              have h1 : 1 ≤ cs'.length + 1 := hres.1
              have h2 : cs'.length + 1 + 1 = 1 := hlen
              omega
      | cons r2 rs' =>
        -- more runs: w ++ X = r ++ '.' :: runsJoin (r2 :: rs') t
        rw [show runsJoin (r :: r2 :: rs') t = r ++ '.' :: runsJoin (r2 :: rs') t
          from rfl] at heq
        obtain ⟨e, hre, hX, hed⟩ :=
          digit_prefix_cases heq hwd hrd (fun c cs' hh => by
            injection hh with h1 _
            rw [← h1]
            simp)
        cases dot with
        | true =>
          rw [if_pos rfl] at hX
          cases e with
          | nil =>
            -- aligned: w = r, recurse on the remaining runs
            rw [List.nil_append] at hX
            rw [List.append_nil] at hre
            injection hX with _ hX
            have hres := ihc (r2 :: rs') t R (by simp)
              (fun rn hrn => hruns rn (List.mem_cons_of_mem _ hrn))
              hchunks' ht hR hX
            constructor
            · exact Nat.succ_le_succ hres.1
            · intro hlen
              have hlen' : cs.length + 1 = rs'.length + 1 + 1 := hlen
              have h2 := hres.2 (show cs.length = (r2 :: rs').length by
                rw [List.length_cons]; omega)
              refine ⟨?_, h2.2⟩
              rw [List.map_cons, h2.1, hre]
          | cons c e' =>
            exfalso
            rw [List.cons_append] at hX
            injection hX with hc _
            rw [List.all_cons, Bool.and_eq_true] at hed
            have := hed.1
            rw [← hc] at this
            exact absurd this (by simp)
        | false =>
          rw [if_neg (by simp)] at hX
          cases e with
          | nil =>
            exfalso
            rw [List.nil_append] at hX
            cases cs with
            | nil =>
              rw [chunksJoin] at hX
              have := (hR '.' _ hX).2
              exact absurd rfl this
            | cons chunk2 cs' =>
              obtain ⟨w2, d2⟩ := chunk2
              obtain ⟨hw2ne, hw2d⟩ := hchunks' (w2, d2) (List.mem_cons_self _ _)
              cases w2 with
              | nil => exact absurd rfl hw2ne
              | cons c2 w2' =>
                rw [chunksJoin, List.cons_append] at hX
                injection hX with hc2 _
                rw [List.all_cons, Bool.and_eq_true] at hw2d
                have := hw2d.1
                rw [hc2] at this
                exact absurd this (by simp)
          | cons c e' =>
            cases cs with
            | nil =>
              exfalso
              rw [chunksJoin] at hX
              have := (hR c _ (by rw [hX, List.cons_append])).1
              rw [List.all_cons, Bool.and_eq_true] at hed
              rw [hed.1] at this
              exact absurd this (by simp)
            | cons chunk2 cs' =>
              have hres := ihc ((c :: e') :: r2 :: rs') t R (by simp)
                (fun rn hrn => by
                  rcases List.mem_cons.mp hrn with hrn | hrn
                  · subst hrn; exact ⟨by simp, hed⟩
                  · exact hruns rn (List.mem_cons_of_mem _ hrn))
                hchunks' ht hR
                (by rw [show runsJoin ((c :: e') :: r2 :: rs') t
                      = (c :: e') ++ '.' :: runsJoin (r2 :: rs') t from rfl, hX])
              constructor
              · exact le_trans hres.1 (Nat.le_succ _)
              · intro hlen
                exfalso
                have h1 : rs'.length + 1 + 1 ≤ cs'.length + 1 := hres.1
                have h2 : cs'.length + 1 + 1 = rs'.length + 1 + 1 := hlen
                omega

theorem digitsVal_one (a : Char) : digitsVal [a] = a.toNat - 48 := by
  show 10 * 0 + (a.toNat - 48) = a.toNat - 48
  omega

theorem digitsVal_two (a b : Char) :
    digitsVal [a, b] = 10 * (a.toNat - 48) + (b.toNat - 48) := by
  show 10 * (10 * 0 + (a.toNat - 48)) + (b.toNat - 48) = _
  omega

theorem digitsVal_three (a b c : Char) :
    digitsVal [a, b, c]
      = 100 * (a.toNat - 48) + 10 * (b.toNat - 48) + (c.toNat - 48) := by
  show 10 * (10 * (10 * 0 + (a.toNat - 48)) + (b.toNat - 48)) + (c.toNat - 48) = _
  omega

theorem digitsVal_foldl_ge (w : List Char) :
    ∀ acc, acc * 10 ^ w.length ≤
      w.foldl (fun acc c => 10 * acc + (c.toNat - 48)) acc := by
  induction w with
  | nil => intro acc; simp
  | cons c w' ih =>
    intro acc
    rw [List.foldl_cons, List.length_cons]
    calc acc * 10 ^ (w'.length + 1)
        = (10 * acc) * 10 ^ w'.length := by ring
      _ ≤ (10 * acc + (c.toNat - 48)) * 10 ^ w'.length :=
          Nat.mul_le_mul_right _ (by omega)
      _ ≤ _ := ih _

theorem digitsVal_head_ge {a : Char} {w' : List Char} (ha : 49 ≤ a.toNat) :
    10 ^ w'.length ≤ digitsVal (a :: w') := by
  unfold digitsVal
  rw [List.foldl_cons]
  calc 10 ^ w'.length = 1 * 10 ^ w'.length := by ring
    _ ≤ (10 * 0 + (a.toNat - 48)) * 10 ^ w'.length :=
        Nat.mul_le_mul_right _ (by omega)
    _ ≤ _ := digitsVal_foldl_ge w' _


theorem isOctet_iff_canonical {w : List Char} :
    isOctet w = true ↔ isCanonicalNum w 255 = true := by
  match w with
  | [] => simp [isOctet, isCanonicalNum]
  | [a] =>
    simp only [isOctet, isCanonicalNum, List.isEmpty_cons, Bool.not_false,
      List.all_cons, List.all_nil, Bool.and_true, Bool.true_and,
      noLeadingZero, Bool.and_eq_true, decide_eq_true_eq, digitsVal_one,
      and_assoc]
    constructor
    · intro h
      have := char_isDigit_iff.mp h
      exact ⟨h, by omega⟩
    · intro ⟨h, _⟩; exact h
  | [a, b] =>
    simp only [isOctet, isCanonicalNum, List.isEmpty_cons, Bool.not_false,
      List.all_cons, List.all_nil, Bool.and_true, Bool.true_and,
      noLeadingZero, Bool.and_eq_true, decide_eq_true_eq, digitsVal_two,
      and_assoc]
    constructor
    · intro ⟨h1, h2, h3⟩
      have n1 := char_le_iff_toNat.mp h1
      have n2 := char_le_iff_toNat.mp h2
      have hb := char_isDigit_iff.mp h3
      simp only [show ('1' : Char).toNat = 49 from rfl] at n1
      simp only [show ('9' : Char).toNat = 57 from rfl] at n2
      have ha : a.isDigit = true := char_isDigit_iff.mpr (by omega)
      refine ⟨ha, h3, ?_, by omega⟩
      intro hzero
      rw [hzero, show ('0' : Char).toNat = 48 from rfl] at n1
      omega
    · intro ⟨ha, hb, hz, hle⟩
      have na := char_isDigit_iff.mp ha
      have hz' : a.toNat ≠ 48 := fun hq =>
        hz (char_eq_iff_toNat.mpr (by
          rw [show ('0' : Char).toNat = 48 from rfl]; exact hq))
      refine ⟨?_, ?_, hb⟩
      · rw [char_le_iff_toNat, show ('1' : Char).toNat = 49 from rfl]
        omega
      · rw [char_le_iff_toNat, show ('9' : Char).toNat = 57 from rfl]
        exact na.2
  | [a, b, c] =>
    simp only [isOctet, isCanonicalNum, List.isEmpty_cons, Bool.not_false,
      List.all_cons, List.all_nil, Bool.and_true, Bool.true_and,
      noLeadingZero, Bool.and_eq_true, decide_eq_true_eq, digitsVal_three,
      and_assoc]
    constructor
    · rintro (⟨h1, h2, h3⟩ | ⟨h1, h2a, h2b, h3⟩ | ⟨h1, h2, h3a, h3b⟩)
      · subst h1
        have nb := char_isDigit_iff.mp h2
        have nc := char_isDigit_iff.mp h3
        refine ⟨by decide, h2, h3, by decide, ?_⟩
        rw [show ('1' : Char).toNat = 49 from rfl]
        omega
      · subst h1
        have n2a := char_le_iff_toNat.mp h2a
        have n2b := char_le_iff_toNat.mp h2b
        have nc := char_isDigit_iff.mp h3
        simp only [show ('0' : Char).toNat = 48 from rfl,
          show ('4' : Char).toNat = 52 from rfl] at n2a n2b
        have hb : b.isDigit = true := char_isDigit_iff.mpr (by omega)
        refine ⟨by decide, hb, h3, by decide, ?_⟩
        rw [show ('2' : Char).toNat = 50 from rfl]
        omega
      · subst h1; subst h2
        have n3a := char_le_iff_toNat.mp h3a
        have n3b := char_le_iff_toNat.mp h3b
        simp only [show ('0' : Char).toNat = 48 from rfl,
          show ('5' : Char).toNat = 53 from rfl] at n3a n3b
        have hc : c.isDigit = true := char_isDigit_iff.mpr (by omega)
        refine ⟨by decide, by decide, hc, by decide, ?_⟩
        rw [show ('2' : Char).toNat = 50 from rfl,
          show ('5' : Char).toNat = 53 from rfl]
        omega
    · rintro ⟨ha, hb, hc, hz, hle⟩
      have na := char_isDigit_iff.mp ha
      have nb := char_isDigit_iff.mp hb
      have nc := char_isDigit_iff.mp hc
      have hz' : a.toNat ≠ 48 := fun hq =>
        hz (char_eq_iff_toNat.mpr (by
          rw [show ('0' : Char).toNat = 48 from rfl]; exact hq))
      rcases Nat.lt_or_ge a.toNat 50 with h49 | h50
      · left
        refine ⟨char_eq_iff_toNat.mpr ?_, hb, hc⟩
        rw [show ('1' : Char).toNat = 49 from rfl]
        omega
      · have ha2 : a.toNat = 50 := by omega
        have ha2' : a = '2' := char_eq_iff_toNat.mpr (by
          rw [show ('2' : Char).toNat = 50 from rfl]; omega)
        rcases Nat.lt_or_ge b.toNat 53 with hb52 | hb53
        · right; left
          refine ⟨ha2', ?_, ?_, hc⟩
          · rw [char_le_iff_toNat, show ('0' : Char).toNat = 48 from rfl]
            omega
          · rw [char_le_iff_toNat, show ('4' : Char).toNat = 52 from rfl]
            omega
        · right; right
          have hb5 : b.toNat = 53 := by omega
          refine ⟨ha2', char_eq_iff_toNat.mpr (by
              rw [show ('5' : Char).toNat = 53 from rfl]; omega), ?_, ?_⟩
          · rw [char_le_iff_toNat, show ('0' : Char).toNat = 48 from rfl]
            omega
          · rw [char_le_iff_toNat, show ('5' : Char).toNat = 53 from rfl]
            omega
  | a :: b :: c :: d :: rest =>
    simp only [isOctet, isCanonicalNum, List.isEmpty_cons, Bool.not_false,
      Bool.true_and, noLeadingZero, Bool.and_eq_true, decide_eq_true_eq,
      and_assoc]
    constructor
    · intro h; exact absurd h (by simp)
    · rintro ⟨hall, hz, hle⟩
      exfalso
      rw [List.all_cons, Bool.and_eq_true] at hall
      have na := char_isDigit_iff.mp hall.1
      have ha1 : 49 ≤ a.toNat := by
        rcases Nat.lt_or_ge a.toNat 49 with hlt | hge
        · exfalso
          exact hz (char_eq_iff_toNat.mpr (by
            rw [show ('0' : Char).toNat = 48 from rfl]; omega))
        · exact hge
      have hbig := @digitsVal_head_ge a (b :: c :: d :: rest) ha1
      have hpow : 1000 ≤ 10 ^ (b :: c :: d :: rest).length := by
        have h3 : (3 : Nat) ≤ (b :: c :: d :: rest).length := by simp
        calc (1000 : Nat) = 10 ^ 3 := by norm_num
          _ ≤ 10 ^ (b :: c :: d :: rest).length :=
              Nat.pow_le_pow_right (by norm_num) h3
      omega

theorem maskNumOk_iff {p : List Char} :
    maskNumOk p = true ↔ isCanonicalNum p 32 = true := by
  match p with
  | [] => simp [maskNumOk, isCanonicalNum]
  | [a] =>
    simp only [maskNumOk, isCanonicalNum, List.isEmpty_cons, Bool.not_false,
      List.all_cons, List.all_nil, Bool.and_true, Bool.true_and,
      noLeadingZero, Bool.and_eq_true, decide_eq_true_eq, digitsVal_one,
      and_assoc]
    constructor
    · intro h
      have := char_isDigit_iff.mp h
      exact ⟨h, by omega⟩
    · intro ⟨h, _⟩; exact h
  | [a, b] =>
    simp only [maskNumOk, isCanonicalNum, List.isEmpty_cons, Bool.not_false,
      List.all_cons, List.all_nil, Bool.and_true, Bool.true_and,
      noLeadingZero, Bool.and_eq_true, decide_eq_true_eq, digitsVal_two,
      and_assoc]
    constructor
    · rintro (⟨h1, h2, h3⟩ | ⟨h1, h2a, h2b⟩)
      · have n1 := char_le_iff_toNat.mp h1
        have n2 := char_le_iff_toNat.mp h2
        have nb := char_isDigit_iff.mp h3
        simp only [show ('1' : Char).toNat = 49 from rfl] at n1
        simp only [show ('2' : Char).toNat = 50 from rfl] at n2
        have ha : a.isDigit = true := char_isDigit_iff.mpr (by omega)
        refine ⟨ha, h3, ?_, by omega⟩
        intro hq
        rw [hq, show ('0' : Char).toNat = 48 from rfl] at n1
        omega
      · subst h1
        have n2a := char_le_iff_toNat.mp h2a
        have n2b := char_le_iff_toNat.mp h2b
        simp only [show ('0' : Char).toNat = 48 from rfl,
          show ('2' : Char).toNat = 50 from rfl] at n2a n2b
        have hb : b.isDigit = true := char_isDigit_iff.mpr (by omega)
        refine ⟨by decide, hb, by decide, ?_⟩
        rw [show ('3' : Char).toNat = 51 from rfl]
        omega
    · rintro ⟨ha, hb, hz, hle⟩
      have na := char_isDigit_iff.mp ha
      have nb := char_isDigit_iff.mp hb
      have hz' : a.toNat ≠ 48 := fun hq =>
        hz (char_eq_iff_toNat.mpr (by
          rw [show ('0' : Char).toNat = 48 from rfl]; exact hq))
      rcases Nat.lt_or_ge a.toNat 51 with h50 | h51
      · left
        refine ⟨?_, ?_, hb⟩
        · rw [char_le_iff_toNat, show ('1' : Char).toNat = 49 from rfl]
          omega
        · rw [char_le_iff_toNat, show ('2' : Char).toNat = 50 from rfl]
          omega
      · right
        have ha3 : a.toNat = 51 := by omega
        refine ⟨char_eq_iff_toNat.mpr (by
            rw [show ('3' : Char).toNat = 51 from rfl]; omega), ?_, ?_⟩
        · rw [char_le_iff_toNat, show ('0' : Char).toNat = 48 from rfl]
          omega
        · rw [char_le_iff_toNat, show ('2' : Char).toNat = 50 from rfl]
          omega
  | a :: b :: c :: rest =>
    simp only [maskNumOk, isCanonicalNum, List.isEmpty_cons, Bool.not_false,
      Bool.true_and, noLeadingZero, Bool.and_eq_true, decide_eq_true_eq,
      and_assoc]
    constructor
    · intro h; exact absurd h (by simp)
    · rintro ⟨hall, hz, hle⟩
      exfalso
      rw [List.all_cons, Bool.and_eq_true] at hall
      have na := char_isDigit_iff.mp hall.1
      have ha1 : 49 ≤ a.toNat := by
        rcases Nat.lt_or_ge a.toNat 49 with hlt | hge
        · exfalso
          exact hz (char_eq_iff_toNat.mpr (by
            rw [show ('0' : Char).toNat = 48 from rfl]; omega))
        · exact hge
      have hbig := @digitsVal_head_ge a (b :: c :: rest) ha1
      have hpow : 100 ≤ 10 ^ (b :: c :: rest).length := by
        have h2 : (2 : Nat) ≤ (b :: c :: rest).length := by simp
        calc (100 : Nat) = 10 ^ 2 := by norm_num
          _ ≤ 10 ^ (b :: c :: rest).length :=
              Nat.pow_le_pow_right (by norm_num) h2
      omega

theorem maskTailOk_iff {t : List Char} :
    maskTailOk t = true ↔
      (t = [] ∨ ∃ P, t = '/' :: P ∧ isCanonicalNum P 32 = true) := by
  cases t with
  | nil => simp [maskTailOk]
  | cons c p =>
    rw [maskTailOk]
    constructor
    · intro h
      rw [Bool.and_eq_true, decide_eq_true_eq] at h
      exact Or.inr ⟨p, by rw [h.1], maskNumOk_iff.mp h.2⟩
    · rintro (h | ⟨P, hP, hnum⟩)
      · exact absurd h (by simp)
      · injection hP with h1 h2
        subst h1; subst h2
        rw [Bool.and_eq_true, decide_eq_true_eq]
        exact ⟨rfl, maskNumOk_iff.mpr hnum⟩

theorem isCanonicalNum_shape {w : List Char} {b : Nat}
    (h : isCanonicalNum w b = true) : w ≠ [] ∧ w.all Char.isDigit = true := by
  unfold isCanonicalNum at h
  simp only [Bool.and_eq_true, Bool.not_eq_true'] at h
  exact ⟨by
    intro hq
    subst hq
    simp at h, h.1.1.2⟩

theorem cidrPatternMatch_iff {cs : List Char} :
    cidrPatternMatch cs = true ↔ IsCidrStr cs := by
  constructor
  · intro h
    rw [cidrPatternMatch, Bool.and_eq_true] at h
    obtain ⟨hlook, hbody⟩ := h
    rw [List.any_eq_true] at hbody
    obtain ⟨R, hRmem, hRmask⟩ := hbody
    obtain ⟨A, B, C, D, t, hcs, hA, hB, hC, hD, ht⟩ := lookaheadOk_iff.mp hlook
    obtain ⟨chunks, hlen, hoct, hjoin⟩ := groupPow_sound hRmem
    have htsafe : TailSafe t := by
      intro c cs' hc
      rcases ht with ht | ⟨u, ht⟩
      · rw [ht] at hc; exact absurd hc (by simp)
      · rw [ht] at hc
        injection hc with h1 _
        subst h1
        exact ⟨by decide, by decide⟩
    have hRsafe : TailSafe R := by
      intro c cs' hc
      rcases maskTailOk_iff.mp hRmask with hR | ⟨P, hRP, _⟩
      · rw [hR] at hc; exact absurd hc (by simp)
      · rw [hRP] at hc
        injection hc with h1 _
        subst h1
        exact ⟨by decide, by decide⟩
    have hruns : ∀ rn ∈ [A, B, C, D], rn ≠ [] ∧ rn.all Char.isDigit = true := by
      intro rn hrn
      simp only [List.mem_cons, List.not_mem_nil, or_false] at hrn
      rcases hrn with h | h | h | h <;> subst h <;> assumption
    have hchunks : ∀ p ∈ chunks, p.1 ≠ [] ∧ p.1.all Char.isDigit = true :=
      fun p hp => isOctet_shape (hoct p hp)
    have heq : chunksJoin chunks R = runsJoin [A, B, C, D] t := by
      rw [hjoin, hcs]
      rfl
    have halign := chunks_align chunks [A, B, C, D] t R (by simp)
      hruns hchunks htsafe hRsafe heq
    have hlen4 : chunks.length = ([A, B, C, D] : List (List Char)).length := by
      rw [hlen]; rfl
    obtain ⟨hmap, hRt⟩ := halign.2 hlen4
    have hoctruns : ∀ rn ∈ [A, B, C, D], isOctet rn = true := by
      intro rn hrn
      rw [← hmap] at hrn
      rw [List.mem_map] at hrn
      obtain ⟨p, hp, hp1⟩ := hrn
      rw [← hp1]
      exact hoct p hp
    refine ⟨A, B, C, D, t, hcs, ?_, ?_, ?_, ?_, ?_⟩
    · exact isOctet_iff_canonical.mp (hoctruns A (by simp))
    · exact isOctet_iff_canonical.mp (hoctruns B (by simp))
    · exact isOctet_iff_canonical.mp (hoctruns C (by simp))
    · exact isOctet_iff_canonical.mp (hoctruns D (by simp))
    · rw [hRt] at hRmask
      exact maskTailOk_iff.mp hRmask
  · rintro ⟨A, B, C, D, t, hcs, hA, hB, hC, hD, ht⟩
    have hAo := isOctet_iff_canonical.mpr hA
    have hBo := isOctet_iff_canonical.mpr hB
    have hCo := isOctet_iff_canonical.mpr hC
    have hDo := isOctet_iff_canonical.mpr hD
    rw [cidrPatternMatch, Bool.and_eq_true]
    constructor
    · apply lookaheadOk_iff.mpr
      refine ⟨A, B, C, D, t, hcs, isCanonicalNum_shape hA, isCanonicalNum_shape hB,
        isCanonicalNum_shape hC, isCanonicalNum_shape hD, ?_⟩
      rcases ht with ht | ⟨P, hP, _⟩
      · exact Or.inl ht
      · exact Or.inr ⟨P, hP⟩
    · rw [List.any_eq_true]
      refine ⟨t, ?_, maskTailOk_iff.mpr ht⟩
      rw [hcs]
      show t ∈ groupPow 4 (A ++ '.' :: (B ++ '.' :: (C ++ '.' :: (D ++ t))))
      rw [groupPow, List.mem_flatMap]
      refine ⟨B ++ '.' :: (C ++ '.' :: (D ++ t)), groupRems_complete_dot hAo _, ?_⟩
      rw [groupPow, List.mem_flatMap]
      refine ⟨C ++ '.' :: (D ++ t), groupRems_complete_dot hBo _, ?_⟩
      rw [groupPow, List.mem_flatMap]
      refine ⟨D ++ t, groupRems_complete_dot hCo _, ?_⟩
      rw [groupPow, List.mem_flatMap]
      refine ⟨t, groupRems_complete_nodot hDo _, ?_⟩
      rw [groupPow]
      exact List.mem_singleton.mpr rfl

theorem IsCidrStr_chars {cs : List Char} (h : IsCidrStr cs) :
    ∀ c ∈ cs, c.isDigit = true ∨ c = '.' ∨ c = '/' := by
  obtain ⟨A, B, C, D, t, hcs, hA, hB, hC, hD, ht⟩ := h
  have hdig : ∀ (w : List Char) (b : Nat), isCanonicalNum w b = true →
      ∀ c ∈ w, c.isDigit = true := by
    intro w b hw c hc
    have := (isCanonicalNum_shape hw).2
    rw [List.all_eq_true] at this
    exact this c hc
  intro c hc
  rw [hcs] at hc
  simp only [List.mem_append, List.mem_cons] at hc
  rcases hc with hc | hc | hc | hc | hc | hc | hc | hc
  · exact Or.inl (hdig A 255 hA c hc)
  · exact Or.inr (Or.inl hc)
  · exact Or.inl (hdig B 255 hB c hc)
  · exact Or.inr (Or.inl hc)
  · exact Or.inl (hdig C 255 hC c hc)
  · exact Or.inr (Or.inl hc)
  · exact Or.inl (hdig D 255 hD c hc)
  · rcases ht with ht | ⟨P, hP, hnum⟩
    · rw [ht] at hc; exact absurd hc (by simp)
    · rw [hP] at hc
      rcases List.mem_cons.mp hc with hc | hc
      · exact Or.inr (Or.inr hc)
      · exact Or.inl (hdig P 32 hnum c hc)

/-- Claim C8, counterexample: the validator does not accept *exactly* the
dotted-quad CIDR strings — the `$` anchors of `re` also match just before
one final newline, so `"10.0.0.0/24\n"` is accepted although it is not a
dotted-quad CIDR string (it contains a character that no dotted-quad CIDR
string contains). -/
theorem claim_C8_counterexample :
    validate_cidr (.str "10.0.0.0/24\n") = .ok () ∧
    ¬ IsCidrStr ("10.0.0.0/24\n".data) := by
  refine ⟨rfl, fun h => ?_⟩
  have := IsCidrStr_chars h '\n' (by decide)
  rcases this with h | h | h
  · exact absurd h (by decide)
  · exact absurd h (by decide)
  · exact absurd h (by decide)

/-- Claim C8 (amended): the CIDR validator accepts exactly the strings
that — after discarding one optional trailing newline, which the `$`
anchor of the regex tolerates — are a dotted-quad IPv4 address (four
canonical decimal octets 0..255) optionally followed by a slash and a
canonical prefix length 0..32; in particular it accepts "10.0.0.0/24" and
rejects "10.0.0/24" with a ValidationError; and the variadic form
succeeds exactly when every one of its values is a valid CIDR. -/
theorem claim_C8_amended :
    (∀ s : String,
      validate_cidr (.str s) = .ok () ↔ IsCidrStr (stripTrailNL s.data)) ∧
    validate_cidr (.str "10.0.0.0/24") = .ok () ∧
    validate_cidr (.str "10.0.0/24") = .error (.validationError "invalid CIDR") ∧
    (∀ args : List Yaml,
      validate_cidrs args = .ok () ↔ ∀ a ∈ args, validate_cidr a = .ok ()) := by
  refine ⟨fun s => ?_, rfl, rfl, fun args => ?_⟩
  · unfold validate_cidr
    dsimp only
    split_ifs with hm
    · simp only [true_iff]
      exact cidrPatternMatch_iff.mp hm
    · constructor
      · intro h; exact absurd h (by simp)
      · intro h
        exact absurd (cidrPatternMatch_iff.mpr h) hm
  · induction args with
    | nil => simp [validate_cidrs]
    | cons a rest ih =>
      rw [validate_cidrs]
      cases hv : validate_cidr a with
      | ok u =>
        rw [ih]
        constructor
        · intro h b hb
          rcases List.mem_cons.mp hb with hb | hb
          · subst hb; rw [hv]
          · exact h b hb
        · intro h b hb
          exact h b (List.mem_cons_of_mem _ hb)
      | error e =>
        constructor
        · intro h; exact absurd h (by simp)
        · intro h
          have := h a (List.mem_cons_self _ _)
          rw [hv] at this
          exact absurd this (by simp)

theorem claim_C8_amended_witness :
    IsCidrStr (stripTrailNL ("10.0.0.0/24".data)) :=
  (claim_C8_amended.1 "10.0.0.0/24").mp rfl
